import Mathlib

/-!
Verification of the `go-junit-report` test-output parser
(`parser/parser.go`, `formatter/json-formatter.go`).

The Go code is shallowly embedded:
* Go strings become `List Char` (`GoStr`); the `bufio` line reader becomes a
  list of input events (a read line, or a read error);
* `float64` values become exact rationals `ℚ`.  The reachable float
  operations (decimal literals produced by `strconv.ParseFloat` on
  `\d+\.\d+` strings, addition, subtraction, multiplication by `1e9`) are
  modeled by exact rational arithmetic, written with `mkRat` so that the
  kernel can evaluate them (`qadd`/`qsub`/`qmul` below, proved equal to the
  `ℚ` field operations);
* the compiled regular expressions of `parser.go` become hand-rolled
  deterministic matchers with Go/RE2 leftmost-first semantics, documented
  one by one;
* `time.Time` becomes nanoseconds since Go's zero time (January 1, year 1,
  00:00:00 UTC) as an `Int`; `time.Parse` with the RFC3339 layout becomes
  `goTimeParse`, returning the parsed instant together with an error flag
  (the zero time on failure, as the Go standard library does).

The mutable `[]*Test` slice of the Go parser is modeled as a `List Test`
with functional update: pointer mutation through `findTest` becomes an
update at the index that `findTest` returns, which is faithful because a
`Test` is only reachable through the current `tests` slice until its
package is finalized, and never afterwards.
-/

namespace GoJunit

/-- Go strings, as lists of characters. -/
abbrev GoStr := List Char

/-- Shorthand turning a Lean string literal into a `GoStr`. -/
def gs (s : String) : GoStr := s.data

/-- RE2's Perl class `\s`: `[\t\n\f\r ]`. -/
def goSpace (c : Char) : Bool :=
  c = ' ' || c = '\t' || c = '\n' || c = '\x0c' || c = '\r'

/-- RE2's `\d`: ASCII digits. -/
def isDigitC (c : Char) : Bool := c.isDigit

/-- RE2's `\w`: `[0-9A-Za-z_]`. -/
def isWordC (c : Char) : Bool := c.isAlphanum || c = '_'

/-- RE2's `.` (without the `s` flag): any character except newline. -/
def anyC (c : Char) : Bool := c ≠ '\n'

/-- RE2's `\S`: complement of `\s`. -/
def nonSpaceC (c : Char) : Bool := !goSpace c

/-- `unicode.IsSpace` restricted to ASCII (`strings.TrimSpace` uses it):
`[\t\n\v\f\r ]`. -/
def uSpace (c : Char) : Bool :=
  c = ' ' || c = '\t' || c = '\n' || c = '\x0b' || c = '\x0c' || c = '\r'

/-- `strings.TrimSpace`. -/
def goTrimSpace (s : GoStr) : GoStr :=
  ((s.dropWhile uSpace).reverse.dropWhile uSpace).reverse

/-- `strings.HasSuffix`. -/
def goHasSuffix (s suf : GoStr) : Bool := suf.isSuffixOf s

/-- Update the element at index `i` of a list (Go's mutation through a
pointer obtained from the slice). Out of range: unchanged. -/
def updateAt : List α → Nat → (α → α) → List α
  | [], _, _ => []
  | x :: xs, 0, f => f x :: xs
  | x :: xs, n + 1, f => x :: updateAt xs n f

/-! ### Exact models of the reachable `float64` operations -/

/-- `float64` addition, modeled exactly on `ℚ` in a kernel-evaluable form. -/
def qadd (a b : ℚ) : ℚ := mkRat (a.num * b.den + b.num * a.den) (a.den * b.den)

/-- `float64` subtraction, modeled exactly on `ℚ`. -/
def qsub (a b : ℚ) : ℚ := mkRat (a.num * b.den - b.num * a.den) (a.den * b.den)

/-- `float64` multiplication, modeled exactly on `ℚ`. -/
def qmul (a b : ℚ) : ℚ := mkRat (a.num * b.num) (a.den * b.den)

theorem qadd_eq_add (a b : ℚ) : qadd a b = a + b := (Rat.add_def' a b).symm

theorem qsub_eq_sub (a b : ℚ) : qsub a b = a - b := (Rat.sub_def' a b).symm

theorem qmul_eq_mul (a b : ℚ) : qmul a b = a * b := by
  unfold qmul
  rw [Rat.mul_def, Rat.normalize_eq_mkRat]

theorem qadd_zero (a : ℚ) : qadd a 0 = a := by rw [qadd_eq_add, add_zero]

/-- Digits to a natural number (the usual base-10 reading). -/
def digitsToNat (s : GoStr) : Nat :=
  s.foldl (fun acc c => 10 * acc + (c.toNat - '0'.toNat)) 0

/-- `parseTime` of `parser.go`:

    func parseTime(time string) float64 {
        var t float64
        t, _ = strconv.ParseFloat(time, 64)
        return t
    }

`strconv.ParseFloat`'s error is discarded, so an unparsable string yields
`0`.  Within `Parse` this function is only ever applied to capture groups
of the compiled regexes, which are either `""` (the `[build failed]`
result shape) or of shape `\d+\.\d+`/`\d+`; the model parses exactly the
plain decimal forms and returns `0` elsewhere, which coincides with
`ParseFloat` on every reachable argument (the float64 rounding of the
decimal is modeled as the exact rational). -/
def parseTime (s : GoStr) : ℚ :=
  let whole := s.takeWhile isDigitC
  let rest := s.drop whole.length
  if whole = [] then 0
  else
    match rest with
    | [] => mkRat (digitsToNat whole) 1
    | '.' :: fr =>
        if fr ≠ [] ∧ fr.all isDigitC then
          mkRat (digitsToNat whole * 10 ^ fr.length + digitsToNat fr) (10 ^ fr.length)
        else 0
    | _ => 0

/-! ### Fixed-shape regex matchers

Several of the patterns in `parser.go` contain no unbounded repetition, so
a match is a pointwise prefix check against a list of character
predicates. -/

/-- Does `s` start with a character for each predicate in `ps`, in order? -/
def matchShape : List (Char → Bool) → GoStr → Bool
  | [], _ => true
  | _ :: _, [] => false
  | p :: ps, c :: cs => p c && matchShape ps cs

/-- A literal character, as a shape element. -/
def litC (c : Char) : Char → Bool := fun d => d = c

/-- A literal string, as a list of shape elements. -/
def litS (s : String) : List (Char → Bool) := s.data.map litC

/-- `\d{4}/\d{2}/\d{2}`. -/
def dateShape : List (Char → Bool) :=
  [isDigitC, isDigitC, isDigitC, isDigitC, litC '/', isDigitC, isDigitC,
   litC '/', isDigitC, isDigitC]

/-- `\d{2}:\d{2}:\d{2}`. -/
def clockShape : List (Char → Bool) :=
  [isDigitC, isDigitC, litC ':', isDigitC, isDigitC, litC ':', isDigitC, isDigitC]

/-- `regexDestroyStart = ^\d{4}/\d{2}/\d{2}.\d{2}:\d{2}:\d{2}.\SWARN\S.Test:.Executing.destroy.step`
(used only as a boolean test; anchored, no unbounded parts). -/
def matchDestroyStart (l : GoStr) : Bool :=
  matchShape (dateShape ++ [anyC] ++ clockShape ++ [anyC, nonSpaceC] ++
    litS "WARN" ++ [nonSpaceC, anyC] ++ litS "Test:" ++ [anyC] ++
    litS "Executing" ++ [anyC] ++ litS "destroy" ++ [anyC] ++ litS "step") l

/-- `regexIsDiff = ^(\d{4}/\d{2}/\d{2}).(\d{2}:\d{2}:\d{2}).(\SWARN\S).(Test: Step plan: DIFF:)`
(used only as a boolean test). -/
def matchIsDiff (l : GoStr) : Bool :=
  matchShape (dateShape ++ [anyC] ++ clockShape ++ [anyC, nonSpaceC] ++
    litS "WARN" ++ [nonSpaceC, anyC] ++ litS "Test: Step plan: DIFF:") l

/-- Common prefix shape of the three graph-building markers:
`^(\d{4})/(\d{2})/(\d{2}).(\d{2}):(\d{2}):(\d{2}).(\SINFO\S).(terraform:.building.graph:.<kind>)`.
They are not end-anchored, so the check is a prefix check. -/
def graphShape (kind : String) : List (Char → Bool) :=
  dateShape ++ [anyC] ++ clockShape ++ [anyC, nonSpaceC] ++ litS "INFO" ++
    [nonSpaceC, anyC] ++ litS "terraform:" ++ [anyC] ++ litS "building" ++
    [anyC] ++ litS "graph:" ++ [anyC] ++ litS kind

/-- `regexIsGraphTypeApply` (boolean use only). -/
def matchGraphApply (l : GoStr) : Bool := matchShape (graphShape "GraphTypeApply") l

/-- `regexIsGraphTypePlan` (boolean use only). Note the pattern is not
end-anchored, so it also accepts `GraphTypePlanDestroy` lines. -/
def matchGraphPlan (l : GoStr) : Bool := matchShape (graphShape "GraphTypePlan") l

/-- `regexIsGraphTypeDestroy`, whose literal text is `GraphTypePlanDestroy`
(boolean use only). -/
def matchGraphDestroy (l : GoStr) : Bool :=
  matchShape (graphShape "GraphTypePlanDestroy") l

/-- `regexIsCreateUpdateOrDestroy = ^(CREATE|UPDATE|DESTROY):.(.*)`.
Returns (group 1, group 2).  The `.` after the colon consumes one
non-newline character that is part of neither group; `(.*)` then takes the
rest of the line up to a newline (RE2 `.` does not match `\n`).  The three
alternatives differ in their first character, so ordered alternation is
plain case analysis. -/
def matchCUD (l : GoStr) : Option (GoStr × GoStr) :=
  let tryPre : String → Option GoStr := fun v =>
    if (gs v ++ [':']).isPrefixOf l then
      match l.drop (v.length + 1) with
      | c :: rest => if anyC c then some (rest.takeWhile (fun d => d ≠ '\n')) else none
      | [] => none
    else none
  match tryPre "CREATE" with
  | some r => some (gs "CREATE", r)
  | none =>
    match tryPre "UPDATE" with
    | some r => some (gs "UPDATE", r)
    | none =>
      match tryPre "DESTROY" with
      | some r => some (gs "DESTROY", r)
      | none => none

/-- `regexSummary = ^(PASS|FAIL|SKIP)$`, via `MatchString`. -/
def isSummaryLine (l : GoStr) : Bool :=
  l = gs "PASS" || l = gs "FAIL" || l = gs "SKIP"

/-- Group-2/group-3 payload of `regexStatus`: the test name and duration.
See `matchStatus`. -/
structure StatusMatch where
  kind : GoStr      -- group 1 text: "PASS" | "FAIL" | "SKIP"
  name : GoStr      -- group 2
  dur : GoStr       -- group 3
deriving DecidableEq, Repr

/-- Backward parse of ` \((\d+\.\d+)` against the reversed tail `t` (the
characters before the time-unit suffix, reversed).  Returns
(duration string, name string), both in forward order.  Scanning the
maximal digit runs backward from the end coincides with RE2's
leftmost-first search here: the greedy `(.+)` picks the rightmost viable
` (` split, which is the one found from the end, and at that split the
digit groups are forced by the surrounding literals. -/
def statusTail (t : GoStr) : Option (GoStr × GoStr) :=
  let frac := t.takeWhile isDigitC
  let t1 := t.drop frac.length
  if frac = [] then none
  else
    match t1 with
    | '.' :: t2 =>
      let whole := t2.takeWhile isDigitC
      let t3 := t2.drop whole.length
      if whole = [] then none
      else
        match t3 with
        | '(' :: ' ' :: t4 =>
          let name := t4.reverse
          if name = [] then none
          else if name.contains '\n' then none  -- `.+` does not cross a newline
          else some (whole.reverse ++ '.' :: frac.reverse, name)
        | _ => none
    | _ => none

/-- `regexStatus = ^\s*--- (PASS|FAIL|SKIP): (.+) \((\d+\.\d+)(?: seconds|s)\)$`.

Forward part (`\s*--- `, the status word, `: `) is determined; the
`(.+) \((\d+\.\d+)(?: seconds|s)\)$` part is parsed from the end.  The
alternation `(?: seconds|s)` is resolved by the character before the final
`s)`: a matching string ends in ` seconds)` exactly when the ` seconds`
branch applies (in the `s` branch a digit precedes the `s`), so trying
` seconds` first and falling back to `s` is faithful. -/
def matchStatus (line : GoStr) : Option StatusMatch :=
  let r0 := line.dropWhile goSpace
  if (gs "--- ").isPrefixOf r0 then
    let r1 := r0.drop 4
    let kd : Option GoStr :=
      if (gs "PASS: ").isPrefixOf r1 then some (gs "PASS")
      else if (gs "FAIL: ").isPrefixOf r1 then some (gs "FAIL")
      else if (gs "SKIP: ").isPrefixOf r1 then some (gs "SKIP")
      else none
    match kd with
    | none => none
    | some k =>
      match (r1.drop 6).reverse with
      | ')' :: rest =>
        let viaSeconds :=
          if (gs " seconds").reverse.isPrefixOf rest then statusTail (rest.drop 8)
          else none
        match viaSeconds with
        | some (d, n) => some ⟨k, n, d⟩
        | none =>
          match rest with
          | 's' :: t =>
            match statusTail t with
            | some (d, n) => some ⟨k, n, d⟩
            | none => none
          | _ => none
      | _ => none
  else none

/-- The six `FindStringSubmatch` slots of `regexResult` that `Parse`
consumes (`matches[1]`..`matches[5]`); absent groups are `[]`, as Go
returns `""`. -/
structure ResultMatch where
  kind : GoStr      -- group 1: "ok" | "FAIL"
  pkg : GoStr       -- group 2: [^ ]+
  dur : GoStr       -- group 3: \d+\.\d+ (without the trailing s), or []
  failed : GoStr    -- group 4: `[<word> failed]`, or []
  cov : GoStr       -- group 5: coverage percentage, or []
deriving DecidableEq, Repr

/-- `(?:(\d+\.\d+)s|(\[\w+ failed]))` of `regexResult`: returns
(group 3, group 4, rest).  The two branches start with a digit and `[`
respectively, so ordered alternation is case analysis; within a branch the
greedy digit/word runs cannot backtrack because the following literal is
outside their character class. -/
def resultKindPart (r : GoStr) : Option (GoStr × GoStr × GoStr) :=
  match r.head? with
  | some '[' =>
    let w := (r.drop 1).takeWhile isWordC
    let r1 := (r.drop 1).drop w.length
    if w ≠ [] ∧ (gs " failed]").isPrefixOf r1 then
      some ([], '[' :: w ++ gs " failed]", r1.drop 8)
    else none
  | _ =>
    let whole := r.takeWhile isDigitC
    let r1 := r.drop whole.length
    if whole = [] then none
    else
      match r1 with
      | '.' :: r2 =>
        let frac := r2.takeWhile isDigitC
        let r3 := r2.drop frac.length
        if frac = [] then none
        else
          match r3 with
          | 's' :: r4 => some (whole ++ '.' :: frac, [], r4)
          | _ => none
      | _ => none

/-- `(?:\s+coverage:\s+(\d+\.\d+)%\sof\sstatements(?:\sin\s.+)?)?$` of
`regexResult`: `rest` must be empty (group absent) or the whole coverage
tail (group present; `$` rules out anything else).  Returns group 5.
The greedy `\s+` runs cannot backtrack (what follows them is never a space
character), the digit runs are delimited by `.`/`%`, and `(?:\sin\s.+)?$`
holds of the remainder iff it is empty or ` in` + one space + a nonempty
newline-free tail (`.+` cannot cross a newline and `$` is end of text). -/
def covTail (rest : GoStr) : Option GoStr :=
  if rest = [] then some []
  else
    let sp := rest.takeWhile goSpace
    let r1 := rest.drop sp.length
    if sp = [] then none
    else if (gs "coverage:").isPrefixOf r1 then
      let r2 := r1.drop 9
      let sp2 := r2.takeWhile goSpace
      let r3 := r2.drop sp2.length
      if sp2 = [] then none
      else
        let whole := r3.takeWhile isDigitC
        let r4 := r3.drop whole.length
        if whole = [] then none
        else
          match r4 with
          | '.' :: r5 =>
            let frac := r5.takeWhile isDigitC
            let r6 := r5.drop frac.length
            if frac = [] then none
            else
              match r6 with
              | '%' :: c1 :: r7 =>
                if goSpace c1 ∧ (gs "of").isPrefixOf r7 then
                  match r7.drop 2 with
                  | c2 :: r8 =>
                    if goSpace c2 ∧ (gs "statements").isPrefixOf r8 then
                      let r9 := r8.drop 10
                      if r9 = [] then some (whole ++ '.' :: frac)
                      else
                        match r9 with
                        | c3 :: r10 =>
                          if goSpace c3 ∧ (gs "in").isPrefixOf r10 then
                            match r10.drop 2 with
                            | c4 :: r11 =>
                              if goSpace c4 ∧ r11 ≠ [] ∧ ¬ r11.contains '\n' then
                                some (whole ++ '.' :: frac)
                              else none
                            | [] => none
                          else none
                        | [] => none
                    else none
                  | [] => none
                else none
              | _ => none
          | _ => none
    else none

/-- One attempt at `([^ ]+)\s+(?:...)...$` with a fixed package-name
candidate: `pkgRev` is the candidate (reversed), `rest` what follows it. -/
def resultAttempt (kind : GoStr) (pkgRev rest : GoStr) : Option ResultMatch :=
  let sp := rest.takeWhile goSpace
  let r1 := rest.drop sp.length
  if sp = [] then none
  else
    match resultKindPart r1 with
    | none => none
    | some (d, f, r2) =>
      match covTail r2 with
      | none => none
      | some cov => some ⟨kind, pkgRev.reverse, d, f, cov⟩

/-- Backtracking over the greedy `([^ ]+)`: try the longest candidate
first, then give characters back one at a time (RE2 leftmost-first
semantics).  `pkgRev` is the not-yet-given-back part, reversed. -/
def tryPkgSplits (kind : GoStr) (pkgRev giveBack after : GoStr) : Option ResultMatch :=
  match pkgRev with
  | [] => none
  | c :: pr =>
    match resultAttempt kind pkgRev (giveBack ++ after) with
    | some m => some m
    | none => tryPkgSplits kind pr (c :: giveBack) after

/-- Backtracking over the first greedy `\s+` (between group 1 and the
package name): try the longest whitespace run first; for each, the
package-name candidate is the maximal run of non-space characters that
follows.  `j` counts the whitespace characters consumed. -/
def trySpaceSplits (kind : GoStr) (rest : GoStr) : Nat → Option ResultMatch
  | 0 => none
  | j + 1 =>
    let r := rest.drop (j + 1)
    let run := r.takeWhile (fun c => c ≠ ' ')
    let after := r.drop run.length
    match tryPkgSplits kind run.reverse [] after with
    | some m => some m
    | none => trySpaceSplits kind rest j

/-- `regexResult = ^(ok|FAIL)\s+([^ ]+)\s+(?:(\d+\.\d+)s|(\[\w+ failed]))(?:\s+coverage:\s+(\d+\.\d+)%\sof\sstatements(?:\sin\s.+)?)?$`.

The two alternatives of group 1 differ in their first character, so that
choice is determined; the interaction of the greedy `\s+` and `([^ ]+)`
(which can contain non-space whitespace such as tabs) is an explicit
backtracking search, longest-first, as RE2's leftmost-first semantics
prescribes. -/
def matchResult (line : GoStr) : Option ResultMatch :=
  let go : GoStr → GoStr → Option ResultMatch := fun kind r1 =>
    trySpaceSplits kind r1 (r1.takeWhile goSpace).length
  if (gs "ok").isPrefixOf line then go (gs "ok") (line.drop 2)
  else if (gs "FAIL").isPrefixOf line then go (gs "FAIL") (line.drop 4)
  else none

/-- `regexCoverage = ^coverage:\s+(\d+\.\d+)%\s+of\s+statements(?:\sin\s.+)?$`
(returns group 1).  Anchored and backtracking-free for the same reasons as
`covTail`; note `%\s+of\s+statements` uses `\s+` where `regexResult` has a
single `\s`. -/
def matchCoverage (line : GoStr) : Option GoStr :=
  if (gs "coverage:").isPrefixOf line then
    let r1 := line.drop 9
    let sp := r1.takeWhile goSpace
    let r2 := r1.drop sp.length
    if sp = [] then none
    else
      let whole := r2.takeWhile isDigitC
      let r3 := r2.drop whole.length
      if whole = [] then none
      else
        match r3 with
        | '.' :: r4 =>
          let frac := r4.takeWhile isDigitC
          let r5 := r4.drop frac.length
          if frac = [] then none
          else
            match r5 with
            | '%' :: r6 =>
              let sp2 := r6.takeWhile goSpace
              let r7 := r6.drop sp2.length
              if sp2 = [] then none
              else if (gs "of").isPrefixOf r7 then
                let r8 := r7.drop 2
                let sp3 := r8.takeWhile goSpace
                let r9 := r8.drop sp3.length
                if sp3 = [] then none
                else if (gs "statements").isPrefixOf r9 then
                  let r10 := r9.drop 10
                  if r10 = [] then some (whole ++ '.' :: frac)
                  else
                    match r10 with
                    | c3 :: r11 =>
                      if goSpace c3 ∧ (gs "in").isPrefixOf r11 then
                        match r11.drop 2 with
                        | c4 :: r12 =>
                          if goSpace c4 ∧ r12 ≠ [] ∧ ¬ r12.contains '\n' then
                            some (whole ++ '.' :: frac)
                          else none
                        | [] => none
                      else none
                    | [] => none
                else none
              else none
            | _ => none
        | _ => none
  else none

/-- `regexOutput = (    )*\t(.*)` (unanchored, `FindStringSubmatch`).
`parser.go` only tests whether the pattern matched (it always yields 3
submatch slots) and then uses group 2.  The pattern matches iff the line
contains a tab: the leading `(    )*` may match zero groups, so every tab
position starts a match.  The leftmost match places its tab at the first
tab of the line (a match's tab is preceded, inside the match, only by
four-space groups, so no match can use a later tab while starting at or
before the first one), and group 2 is everything after that tab up to a
newline or the end. -/
def matchOutput : GoStr → Option GoStr
  | [] => none
  | '\t' :: rest => some (rest.takeWhile (fun d => d ≠ '\n'))
  | _ :: rest => matchOutput rest

/-! ### Timestamps -/

/-- `regexTimeFormat = (\d{4})/(\d{2})/(\d{2})\s(\d{2}):(\d{2}):(\d{2})`:
the fixed 19-character shape at one position. -/
def timeFormatShape : List (Char → Bool) :=
  dateShape ++ [goSpace] ++ clockShape

/-- `FindStringSubmatch` of `regexTimeFormat`: leftmost match of the fixed
shape; returns the six digit groups (y, mo, d, h, mi, s). -/
def findTimeFormat : GoStr → Option (GoStr × GoStr × GoStr × GoStr × GoStr × GoStr)
  | [] => none
  | l@(_ :: rest) =>
    if matchShape timeFormatShape l then
      some (l.take 4, (l.drop 5).take 2, (l.drop 8).take 2,
            (l.drop 11).take 2, (l.drop 14).take 2, (l.drop 17).take 2)
    else findTimeFormat rest

/-- `convertToRFC3339` of `parser.go`: if `regexTimeFormat` matches, the
result is the six groups formatted as `%v-%v-%vT%v:%v:%v+08:00`
(replacing the whole string); otherwise the string is returned
unchanged. -/
def convertToRFC3339 (time : GoStr) : GoStr :=
  match findTimeFormat time with
  | some (y, mo, d, h, mi, s) =>
      y ++ '-' :: mo ++ '-' :: d ++ 'T' :: h ++ ':' :: mi ++ ':' :: s ++ gs "+08:00"
  | none => time

/-- Go `time.Time`, as nanoseconds since Go's zero time
(January 1, year 1, 00:00:00 UTC).  The zero value is `0`. -/
abbrev GoTime := Int

/-- Days from 0001-01-01 of a proleptic-Gregorian civil date
(standard era-based algorithm; divisions are on nonnegative values). -/
def daysFromYear1 (y m d : Int) : Int :=
  let y' := if m ≤ 2 then y - 1 else y
  let era := (if 0 ≤ y' then y' else y' - 399) / 400
  let yoe := y' - era * 400
  let doy := (153 * (if 2 < m then m - 3 else m + 9) + 2) / 5 + d - 1
  let doe := yoe * 365 + yoe / 4 - yoe / 100 + doy
  era * 146097 + doe - 719468 + 719162

/-- Is `y` (proleptic Gregorian) a leap year? -/
def isLeap (y : Nat) : Bool := y % 4 = 0 && (y % 100 ≠ 0 || y % 400 = 0)

/-- Days in month `m` of year `y`. -/
def daysInMonth (y m : Nat) : Nat :=
  if m = 2 then (if isLeap y then 29 else 28)
  else if m = 4 ∨ m = 6 ∨ m = 9 ∨ m = 11 then 30
  else 31

/-- Two ASCII digits as a number. -/
def twoDigits (a b : Char) : Nat := (a.toNat - 48) * 10 + (b.toNat - 48)

/-- Fractional-second digits to nanoseconds: Go keeps at most nanosecond
precision (further digits are dropped). -/
def fracToNanos (fr : GoStr) : Nat :=
  digitsToNat (fr.take 9) * 10 ^ (9 - (fr.take 9).length)

/-- The timezone tail of an RFC3339 string: `Z` or `±hh:mm` (offset in
seconds, range-checked as `time.Parse` does), which must end the input. -/
def parseZone : GoStr → Option Int
  | ['Z'] => some 0
  | [sgn, h1, h2, ':', m1, m2] =>
    if (sgn = '+' ∨ sgn = '-') ∧ isDigitC h1 ∧ isDigitC h2 ∧ isDigitC m1 ∧ isDigitC m2 then
      let hh := twoDigits h1 h2
      let mm := twoDigits m1 m2
      if hh ≤ 23 ∧ mm ≤ 59 then
        let off : Int := hh * 3600 + mm * 60
        some (if sgn = '-' then -off else off)
      else none
    else none
  | _ => none

/-- Model of Go `time.Parse` with the `time.RFC3339` layout: the parsed
instant together with an error flag.  Go returns the pair
`(Time, error)`; on any parse or range failure the `Time` is the zero
value, modeled here as `(0, true)`.  Accepts
`yyyy-mm-ddThh:mm:ss[.fff...](Z|±hh:mm)` with the calendar and clock
fields range-checked, as the standard library does. -/
def goTimeParse (s : GoStr) : GoTime × Bool :=
  match s with
  | y1 :: y2 :: y3 :: y4 :: '-' :: m1 :: m2 :: '-' :: d1 :: d2 :: 'T' ::
    h1 :: h2 :: ':' :: mi1 :: mi2 :: ':' :: s1 :: s2 :: rest =>
    if [y1, y2, y3, y4, m1, m2, d1, d2, h1, h2, mi1, mi2, s1, s2].all isDigitC then
      let y := twoDigits y1 y2 * 100 + twoDigits y3 y4
      let mo := twoDigits m1 m2
      let d := twoDigits d1 d2
      let h := twoDigits h1 h2
      let mi := twoDigits mi1 mi2
      let se := twoDigits s1 s2
      let fracZone : Option (Nat × Int) :=
        match rest with
        | '.' :: fr =>
          let digs := fr.takeWhile isDigitC
          if digs = [] then none
          else (parseZone (fr.drop digs.length)).map fun z => (fracToNanos digs, z)
        | _ => (parseZone rest).map fun z => (0, z)
      match fracZone with
      | none => (0, true)
      | some (ns, zoff) =>
        if 1 ≤ mo ∧ mo ≤ 12 ∧ 1 ≤ d ∧ d ≤ daysInMonth y mo ∧ h ≤ 23 ∧ mi ≤ 59 ∧ se ≤ 59 then
          let secs : Int := daysFromYear1 y mo d * 86400 + h * 3600 + mi * 60 + se - zoff
          (secs * 1000000000 + ns, false)
        else (0, true)
    else (0, true)
  | _ => (0, true)

/-- Go `time.Duration` saturation bounds (`int64`). -/
def maxDuration : Int := 2 ^ 63 - 1

/-- `Time.Sub`: the difference in nanoseconds, saturated to the `int64`
`Duration` range as the standard library does. -/
def goSub (t u : GoTime) : Int :=
  let d := t - u
  if d > maxDuration then maxDuration
  else if d < -(2 ^ 63) then -(2 ^ 63)
  else d

/-- `float64(d)` for a `Duration` `d`: exact (float rounding is modeled as
exact rational arithmetic throughout). -/
def durToQ (d : Int) : ℚ := mkRat d 1

/-! ### Data model (`parser.go` types) -/

/-- `Result` of `parser.go`: a test outcome. -/
inductive Result
  | PASS
  | FAIL
  | SKIP
deriving DecidableEq, Repr

/-- `ACTION` of `parser.go`: what a test step is doing. -/
inductive ACTION
  | UNKNOWN
  | CREATE
  | UPDATE
  | DESTROY
deriving DecidableEq, Repr

/-- `ResourceTime` of `parser.go`. -/
structure ResourceTime where
  resourceName : GoStr
  duration : ℚ
  action : List ACTION
deriving DecidableEq, Repr

/-- `Test` of `parser.go`. -/
structure Test where
  name : GoStr
  time : ℚ
  testOverhead : ℚ
  createTime : ℚ
  createDestroyTime : ℚ
  result : Result
  output : List GoStr
  createText : List GoStr
  destroyText : List GoStr
  steps : List ResourceTime
  cleanUp : List ResourceTime
deriving DecidableEq, Repr

/-- `Package` of `parser.go`. -/
structure Package where
  name : GoStr
  time : ℚ
  tests : List Test
  coveragePct : GoStr
deriving DecidableEq, Repr

/-- `Report` of `parser.go`. -/
structure Report where
  packages : List Package
deriving DecidableEq, Repr

/-- `actionFromString` of `parser.go`. -/
def actionFromString (action : GoStr) : ACTION :=
  let lower := action.map Char.toLower
  if lower = gs "create" then ACTION.CREATE
  else if lower = gs "update" then ACTION.UPDATE
  else if lower = gs "destroy" then ACTION.DESTROY
  else ACTION.UNKNOWN

/-- `addAction` of `parser.go`: append `action` unless already present
(the Go code scans the slice backward and returns early on a hit, which
is a membership test; an empty slice is replaced by a fresh singleton). -/
def addAction (actions : List ACTION) (action : GoStr) : List ACTION :=
  let newAction := actionFromString action
  if actions = [] then [newAction]
  else if actions.contains newAction then actions
  else actions ++ [newAction]

/-- `clearCreateDestroyText` of `parser.go`. -/
def clearCreateDestroyText (t : Test) : Test :=
  { t with createText := [], destroyText := [] }

/-- `findTest` of `parser.go` searches `tests` from the end and returns
the first hit; the model returns its index (mutation through the returned
pointer becomes `updateAt` at this index). -/
def findTestIdx (tests : List Test) (name : GoStr) : Option Nat :=
  match tests with
  | [] => none
  | t :: rest =>
    match findTestIdx rest name with
    | some i => some (i + 1)
    | none => if t.name = name then some 0 else none

/-! ### Phase analyzer (`processCreateDestroySections`)

The Go function mutates `rt`/`drt`, `test.Steps`, `test.CleanUp`,
`totalTestTime` and four derived duration fields of `test` across three
levels of nested loops.  The loop state is collected in `PhaseState`;
the other fields of the test are untouched. -/

/-- The mutable state of the two scan loops of
`processCreateDestroySections`: the in-progress `rt`/`drt`, the slices
being appended to, `totalTestTime`, the derived duration fields, and the
(read-only) reported test duration. -/
structure PhaseState where
  rt : ResourceTime
  steps : List ResourceTime
  cleanUp : List ResourceTime
  total : ℚ
  createTime : ℚ
  testOverhead : ℚ
  createDestroyTime : ℚ
  testTime : ℚ
deriving DecidableEq, Repr

/-- Least index `u ≥ x` with `p lines[u]`, bundled with its bounds (the
innermost `for x := i; x < len; x++` search for the phase-end marker). -/
def findEndFrom (lines : List GoStr) (p : GoStr → Bool) (x : Nat) :
    Option {u : Nat // u < lines.length ∧ x ≤ u} :=
  if h : x < lines.length then
    if p (lines.get ⟨x, h⟩) then some ⟨x, h, Nat.le_refl x⟩
    else
      (findEndFrom lines p (x + 1)).map fun ⟨u, hu⟩ =>
        ⟨u, hu.1, Nat.le_of_succ_le hu.2⟩
  else none
termination_by lines.length - x

/-- One diff-action line: `rt.Action = addAction(...)` and the
comma-joined resource name. -/
def cudStep (rt : ResourceTime) (verb res : GoStr) : ResourceTime :=
  { rt with
    action := addAction rt.action verb,
    resourceName :=
      if rt.resourceName = [] then res else rt.resourceName ++ gs ", " ++ res }

/-- The inner `for i := txtIndex; i < len; i++` loop of the create scan.
Returns the final state and the final value of `linesProcessed` (which is
set to `i` at the top of every iteration; after the end-marker jump
`i = x` the loop resumes at `x + 1`).  A completed create step appends
`rt` (with its freshly computed duration) to `Steps`, accumulates the
duration into `totalTestTime`, stores that into `CreateTime`, and resets
all of `rt`. -/
def createInner (lines : List GoStr) (i lp : Nat) (s : PhaseState) : PhaseState × Nat :=
  if h : i < lines.length then
    let ln := lines.get ⟨i, h⟩
    match matchCUD ln with
    | some (verb, res) => createInner lines (i + 1) i { s with rt := cudStep s.rt verb res }
    | none =>
      if matchGraphApply ln then
        let startT := (goTimeParse (convertToRFC3339 ln)).1
        match findEndFrom lines matchGraphPlan i with
        | some ⟨x, hx⟩ =>
          let endT := (goTimeParse (convertToRFC3339 (lines.get ⟨x, hx.1⟩))).1
          let dur := durToQ (goSub endT startT)
          let rt' := { s.rt with duration := dur }
          let total' := qadd s.total dur
          createInner lines (x + 1) i
            { s with rt := ⟨[], 0, []⟩, steps := s.steps ++ [rt'],
                     total := total', createTime := total' }
        | none => createInner lines (i + 1) i s
      else createInner lines (i + 1) i s
  else (s, lp)
termination_by lines.length - i
decreasing_by all_goals omega

/-- The outer `for txtIndex, createText := range test.CreateText` loop of
the create scan: breaks once `linesProcessed == len(CreateText)-1`,
otherwise runs the inner scan from every diff-marker line. -/
def createOuter (lines : List GoStr) (ti lp : Nat) (s : PhaseState) : PhaseState :=
  if h : ti < lines.length then
    if lp = lines.length - 1 then s
    else if matchIsDiff (lines.get ⟨ti, h⟩) then
      let (s', lp') := createInner lines ti lp s
      createOuter lines (ti + 1) lp' s'
    else createOuter lines (ti + 1) lp s
  else s
termination_by lines.length - ti

/-- The inner loop of the destroy scan.  The start marker is the same
graph-apply marker; the end marker is `regexIsGraphTypeDestroy` (whose
text is `GraphTypePlanDestroy`).  A completed destroy step appends `drt`
to `CleanUp`, accumulates the duration, recomputes
`TestOverhead = Time * float64(time.Second) - totalTestTime` and
`CreateDestroyTime`, and — unlike the create scan — resets nothing in
`drt`. -/
def destroyInner (lines : List GoStr) (i lp : Nat) (s : PhaseState) : PhaseState × Nat :=
  if h : i < lines.length then
    let ln := lines.get ⟨i, h⟩
    match matchCUD ln with
    | some (verb, res) => destroyInner lines (i + 1) i { s with rt := cudStep s.rt verb res }
    | none =>
      if matchGraphApply ln then
        let startT := (goTimeParse (convertToRFC3339 ln)).1
        match findEndFrom lines matchGraphDestroy i with
        | some ⟨x, hx⟩ =>
          let endT := (goTimeParse (convertToRFC3339 (lines.get ⟨x, hx.1⟩))).1
          let dur := durToQ (goSub endT startT)
          let drt' := { s.rt with duration := dur }
          let total' := qadd s.total dur
          destroyInner lines (x + 1) i
            { s with rt := drt', cleanUp := s.cleanUp ++ [drt'],
                     total := total',
                     testOverhead := qsub (qmul s.testTime (mkRat 1000000000 1)) total',
                     createDestroyTime := total' }
        | none => destroyInner lines (i + 1) i s
      else destroyInner lines (i + 1) i s
  else (s, lp)
termination_by lines.length - i
decreasing_by all_goals omega

/-- The outer loop of the destroy scan. -/
def destroyOuter (lines : List GoStr) (ti lp : Nat) (s : PhaseState) : PhaseState :=
  if h : ti < lines.length then
    if lp = lines.length - 1 then s
    else if matchIsDiff (lines.get ⟨ti, h⟩) then
      let (s', lp') := destroyInner lines ti lp s
      destroyOuter lines (ti + 1) lp' s'
    else destroyOuter lines (ti + 1) lp s
  else s
termination_by lines.length - ti

/-- `processCreateDestroySections` of `parser.go`.  The console diagnostics
at the end of the Go function only print and do not change the returned
test, so they have no counterpart here. -/
def processCreateDestroySections (t : Test) : Test :=
  let s0 : PhaseState :=
    ⟨⟨[], 0, []⟩, t.steps, t.cleanUp, 0, t.createTime, t.testOverhead,
     t.createDestroyTime, t.time⟩
  let s1 := createOuter t.createText 0 0 s0
  let s2 := destroyOuter t.destroyText 0 0 { s1 with rt := ⟨[], 0, []⟩ }
  { t with steps := s2.steps, createTime := s2.createTime,
           cleanUp := s2.cleanUp, testOverhead := s2.testOverhead,
           createDestroyTime := s2.createDestroyTime }

/-! ### The report builder (`Parse`) -/

/-- The per-invocation mutable state of `Parse`'s line loop. -/
structure ParseState where
  packages : List Package
  tests : List Test
  testsTime : ℚ
  cur : GoStr
  seenSummary : Bool
  coveragePct : GoStr
  packageCaptures : List (GoStr × List GoStr)
  capturedPackage : GoStr
  buffer : List GoStr
  isCreate : Bool
deriving DecidableEq, Repr

/-- The initial state, as set up at the top of `Parse`. -/
def initState : ParseState :=
  ⟨[], [], 0, [], false, [], [], [], [], false⟩

/-- Go map read `packageCaptures[k]` (`nil`, i.e. `[]`, when absent). -/
def lookupCapture : List (GoStr × List GoStr) → GoStr → List GoStr
  | [], _ => []
  | (k, v) :: rest, key => if k = key then v else lookupCapture rest key

/-- Go map write `packageCaptures[k] = append(packageCaptures[k], line)`. -/
def addCapture : List (GoStr × List GoStr) → GoStr → GoStr → List (GoStr × List GoStr)
  | [], key, line => [(key, [line])]
  | (k, v) :: rest, key, line =>
    if k = key then (k, v ++ [line]) :: rest
    else (k, v) :: addCapture rest key line

/-- The fresh `Test` literal of the `=== RUN` branch. -/
def newTest (name : GoStr) : Test :=
  ⟨name, 0, 0, 0, 0, Result.FAIL, [], [], [], [], []⟩

/-- The dummy `Test` literal of the two result-line synthesis branches
(all fields other than name/result/output are Go zero values). -/
def dummyTest (name : GoStr) (output : List GoStr) : Test :=
  ⟨name, 0, 0, 0, 0, Result.FAIL, output, [], [], [], []⟩

/-- The trailing create/destroy split of the loop body (lines 255–273 of
`parser.go`): every line is appended to the current test's raw
`CreateText` or `DestroyText` buffer, with a destroy-start marker
switching the phase flag. -/
def phaseSplit (st : ParseState) (line : GoStr) : ParseState :=
  match findTestIdx st.tests st.cur with
  | none => st
  | some i =>
    if matchDestroyStart line then
      { st with isCreate := false,
                tests := updateAt st.tests i fun t =>
                  { t with destroyText := t.destroyText ++ [line] } }
    else if st.isCreate then
      { st with tests := updateAt st.tests i fun t =>
                  { t with createText := t.createText ++ [line] } }
    else
      { st with tests := updateAt st.tests i fun t =>
                  { t with destroyText := t.destroyText ++ [line] } }

/-- The `--- PASS/FAIL/SKIP` branch body, given a found test: set the
outcome (discarding the raw phase buffers on FAIL/SKIP), flush the
generic buffer into the test's output, set name and duration, and run the
phase analyzer on a PASS. -/
def statusUpdate (m : StatusMatch) (buffer : List GoStr) (t : Test) : Test :=
  let t1 :=
    if m.kind = gs "PASS" then { t with result := Result.PASS }
    else if m.kind = gs "SKIP" then clearCreateDestroyText { t with result := Result.SKIP }
    else clearCreateDestroyText { t with result := Result.FAIL }
  let t2 := { t1 with output := t1.output ++ buffer, name := m.name,
                      time := parseTime m.dur }
  if t2.result = Result.PASS then processCreateDestroySections t2 else t2

/-- One iteration of `Parse`'s loop on a successfully read `line`
(`parser.go` lines 139–273).

The `skipCheck` variable of the Go code is omitted: it is `false` at every
point where a branch condition reads it, because it is only set inside the
body of an earlier branch of the same `if`/`else if` chain, and taking
that earlier branch already skips the rest of the chain. -/
def processLine (st : ParseState) (line : GoStr) : ParseState :=
  let st1 :=
    if (gs "=== RUN ").isPrefixOf line then
      -- new test; reset build capture, phase flag, summary flag
      { st with cur := goTrimSpace (line.drop 8),
                tests := st.tests ++ [newTest (goTrimSpace (line.drop 8))],
                capturedPackage := [], isCreate := true, seenSummary := false }
    else
      match matchResult line with
      | some m =>
        -- package result line: maybe synthesize a dummy test, finalize the
        -- package, reset the per-package state
        let cov' := if m.cov ≠ [] then m.cov else st.coveragePct
        let tests' :=
          if goHasSuffix m.failed (gs "failed]") then
            st.tests ++ [dummyTest m.failed (lookupCapture st.packageCaptures m.pkg)]
          else if m.kind = gs "FAIL" ∧ st.tests = [] ∧ st.buffer ≠ [] then
            -- Output: append(make([]string, len(buffer), cap(buffer)), buffer...)
            st.tests ++ [dummyTest (gs "Failure")
              (List.replicate st.buffer.length [] ++ st.buffer)]
          else st.tests
        { st with
            packages := st.packages ++ [⟨m.pkg, parseTime m.dur, tests', cov'⟩],
            buffer := [], tests := [], coveragePct := [], cur := [],
            testsTime := 0 }
      | none =>
        match matchStatus line with
        | some m =>
          let st' := { st with cur := m.name }
          match findTestIdx st'.tests m.name with
          | none => st'
          | some i =>
            { st' with tests := updateAt st'.tests i (statusUpdate m st.buffer),
                       buffer := [],
                       testsTime := qadd st.testsTime (parseTime m.dur) }
        | none =>
          match matchCoverage line with
          | some c => { st with coveragePct := c }
          | none =>
            if st.capturedPackage = [] ∧ (matchOutput line).isSome then
              match matchOutput line with
              | some payload =>
                match findTestIdx st.tests st.cur with
                | some i =>
                  { st with tests := updateAt st.tests i fun t =>
                      { t with output := t.output ++ [payload] } }
                | none => st
              | none => st
            else if (gs "# ").isPrefixOf line then
              { st with capturedPackage := line.drop 2 }
            else if st.capturedPackage ≠ [] then
              { st with packageCaptures :=
                  addCapture st.packageCaptures st.capturedPackage line }
            else if isSummaryLine line then
              { st with seenSummary := true }
            else if ¬ st.seenSummary then
              { st with buffer := st.buffer ++ [line] }
            else st
  phaseSplit st1 line

/-- One event delivered by `reader.ReadLine()`: a line (with its
end-of-line bytes already stripped), or a read error other than `io.EOF`.
The end of the event list is `io.EOF`. -/
inductive InEvent
  | line (s : GoStr)
  | readErr (e : Nat)
deriving DecidableEq, Repr

/-- The line loop of `Parse`: end of input terminates normally, a read
error aborts immediately with that error. -/
def runLines (st : ParseState) : List InEvent → Except Nat ParseState
  | [] => Except.ok st
  | InEvent.line s :: rest => runLines (processLine st s) rest
  | InEvent.readErr e :: _ => Except.error e

/-- `Parse` of `parser.go`: run the loop, then append the final package
built from the fallback package name, the accumulated test-time sum and
any remaining tests (this append is unconditional in the code).  A read
error yields the error and no report (`nil, err`). -/
def Parse (events : List InEvent) (pkgName : GoStr) : Except Nat Report :=
  (runLines initState events).map fun st =>
    ⟨st.packages ++ [⟨pkgName, st.testsTime, st.tests, st.coveragePct⟩]⟩

/-- `Parse` on error-free input (every claim about report contents uses
this form; `Parse_ok_on_lines` below connects it to `Parse`). -/
def parseLines (lines : List GoStr) (pkgName : GoStr) : Report :=
  ⟨(lines.foldl processLine initState).packages ++
    [⟨pkgName, (lines.foldl processLine initState).testsTime,
      (lines.foldl processLine initState).tests,
      (lines.foldl processLine initState).coveragePct⟩]⟩

/-- `Failures` of `parser.go`. -/
def Report.failures (r : Report) : Nat :=
  (r.packages.map fun p => (p.tests.filter fun t => t.result = Result.FAIL).length).sum

/-! ### Spec-side definitions used to state the claims -/

/-- The spec's "sum of the parsed durations of the status lines that
matched a previously started test" (§8, boundary property), written from
the spec's words: walk the lines, collect the names announced by
`=== RUN ` markers, and sum the durations of status lines whose test name
was started before.  (The package-result case is irrelevant under the
"no package-result line" hypothesis of the claim; it contributes
nothing.) -/
def specStatusSum (started : List GoStr) : List GoStr → ℚ
  | [] => 0
  | l :: rest =>
    if (gs "=== RUN ").isPrefixOf l then
      specStatusSum (started ++ [goTrimSpace (l.drop 8)]) rest
    else
      match matchResult l with
      | some _ => specStatusSum started rest
      | none =>
        match matchStatus l with
        | some m =>
          (if m.name ∈ started then parseTime m.dur else 0) + specStatusSum started rest
        | none => specStatusSum started rest

/-- One line's effect on the spec-side list of started test names. -/
def specNames1 (ns : List GoStr) (l : GoStr) : List GoStr :=
  if (gs "=== RUN ").isPrefixOf l then ns ++ [goTrimSpace (l.drop 8)] else ns

/-- The spec-side names after a list of lines. -/
def specNamesAll (ns : List GoStr) (lines : List GoStr) : List GoStr :=
  lines.foldl specNames1 ns

/-- One line's contribution to the spec-side duration sum. -/
def specContrib (ns : List GoStr) (l : GoStr) : ℚ :=
  if (gs "=== RUN ").isPrefixOf l then 0
  else
    match matchResult l with
    | some _ => 0
    | none =>
      match matchStatus l with
      | some m => if m.name ∈ ns then parseTime m.dur else 0
      | none => 0

/-- One "well-formed `=== RUN <name>` line followed by a matching
`--- PASS: <name> (<d>s)` line" of claim C1: the two raw lines together
with the name and duration they carry. -/
structure RunPass where
  runLine : GoStr
  statLine : GoStr
  name : GoStr
  dur : GoStr

/-- The input lines contributed by a list of run/pass pairs. -/
def pairLines (ps : List RunPass) : List GoStr :=
  ps.foldr (fun p acc => p.runLine :: p.statLine :: acc) []

/-- Well-formedness of one run/pass pair, phrased through the embedded
classifiers: the first line is a `=== RUN ` line announcing `name`, the
second is accepted by `regexStatus` as a PASS for the same `name` with
duration text `dur`. -/
def wfPair (p : RunPass) : Prop :=
  (gs "=== RUN ").isPrefixOf p.runLine = true ∧
  goTrimSpace (p.runLine.drop 8) = p.name ∧
  matchStatus p.statLine = some ⟨gs "PASS", p.name, p.dur⟩

/-- The test that one well-formed run/pass pair leaves in the builder
state: PASS, the parsed duration, and the two raw lines in the create
buffer (the phase split appends each processed line there). -/
def c1Test (p : RunPass) : Test :=
  ⟨p.name, parseTime p.dur, 0, 0, 0, Result.PASS, [], [p.runLine, p.statLine],
   [], [], []⟩

/-! ### Supporting lemmas: `updateAt` and `findTestIdx` -/

theorem updateAt_append_length (ts : List Test) (t : Test) (f : Test → Test) :
    updateAt (ts ++ [t]) ts.length f = ts ++ [f t] := by
  induction ts with
  | nil => rfl
  | cons x xs ih => simpa [updateAt] using ih

theorem map_name_updateAt (ts : List Test) (i : Nat) (f : Test → Test)
    (h : ∀ t, ts.get? i = some t → (f t).name = t.name) :
    (updateAt ts i f).map Test.name = ts.map Test.name := by
  induction ts generalizing i with
  | nil => rfl
  | cons x xs ih =>
    cases i with
    | zero => simpa [updateAt] using h x rfl
    | succ n => simpa [updateAt] using ih n (fun t ht => h t ht)

theorem findTestIdx_congr {ts ts' : List Test} (n : GoStr)
    (h : ts.map Test.name = ts'.map Test.name) :
    findTestIdx ts n = findTestIdx ts' n := by
  induction ts generalizing ts' with
  | nil => cases ts' with
    | nil => rfl
    | cons y ys => simp at h
  | cons x xs ih =>
    cases ts' with
    | nil => simp at h
    | cons y ys =>
      simp only [List.map_cons, List.cons.injEq] at h
      simp only [findTestIdx]
      rw [ih h.2, h.1]

theorem findTestIdx_isSome {ts : List Test} {n : GoStr} :
    (findTestIdx ts n).isSome ↔ n ∈ ts.map Test.name := by
  induction ts with
  | nil => simp [findTestIdx]
  | cons x xs ih =>
    rw [findTestIdx]
    cases hx : findTestIdx xs n with
    | some i =>
      have hm : n ∈ xs.map Test.name := ih.mp (by simp [hx])
      simp [hm]
    | none =>
      have hnm : n ∉ xs.map Test.name := fun hm => by
        have := ih.mpr hm
        simp [hx] at this
      by_cases he : x.name = n
      · simp [he, hnm]
      · simp [he, hnm, Ne.symm he]

theorem findTestIdx_name {ts : List Test} {n : GoStr} {i : Nat}
    (h : findTestIdx ts n = some i) : ∃ t, ts.get? i = some t ∧ t.name = n := by
  induction ts generalizing i with
  | nil => simp [findTestIdx] at h
  | cons x xs ih =>
    simp only [findTestIdx] at h
    cases hx : findTestIdx xs n with
    | some j =>
      rw [hx] at h
      injection h with h
      subst h
      obtain ⟨t, ht, hn⟩ := ih hx
      exact ⟨t, by simpa using ht, hn⟩
    | none =>
      rw [hx] at h
      by_cases he : x.name = n
      · simp [he] at h
        subst h
        exact ⟨x, rfl, he⟩
      · simp [he] at h

theorem findTestIdx_append_one (ts : List Test) (t : Test) (n : GoStr) :
    findTestIdx (ts ++ [t]) n =
      if t.name = n then some ts.length else findTestIdx ts n := by
  induction ts with
  | nil => simp [findTestIdx]
  | cons x xs ih =>
    rw [List.cons_append, findTestIdx, ih]
    by_cases he : t.name = n
    · simp [he]
    · simp [he, findTestIdx]

/-! ### Supporting lemmas: matcher exclusions

`processLine` checks the branch conditions in the order of the Go chain;
these lemmas record that a line which one matcher accepts is rejected by
the matchers of the earlier (and, for the phase split, the destroy-start)
branches. -/

theorem goSpace_char (c : Char) (h : goSpace c = true) :
    c = ' ' ∨ c = '\t' ∨ c = '\n' ∨ c = '\x0c' ∨ c = '\r' := by
  simp only [goSpace, Bool.or_eq_true, decide_eq_true_eq] at h
  tauto

theorem isDigitC_false_of_goSpace {c : Char} (h : goSpace c = true) :
    isDigitC c = false := by
  rcases goSpace_char c h with h | h | h | h | h <;> subst h <;> decide

/-- A line whose first character is neither whitespace nor `-` cannot
match `regexStatus`. -/
theorem matchStatus_none_head (c : Char) (t : GoStr)
    (h1 : goSpace c = false) (h2 : c ≠ '-') : matchStatus (c :: t) = none := by
  have hd : (c :: t).dropWhile goSpace = c :: t := by
    simp [List.dropWhile, h1]
  have hp : (gs "--- ").isPrefixOf (c :: t) = false := by
    have : gs "--- " = '-' :: gs "-- " := rfl
    rw [this]
    simp [List.isPrefixOf, Ne.symm h2]
  simp [matchStatus, hd, hp]

/-- A line accepted by `regexStatus` starts with whitespace or `-`. -/
theorem matchStatus_head {l : GoStr} {m : StatusMatch}
    (h : matchStatus l = some m) :
    ∃ c t, l = c :: t ∧ (goSpace c = true ∨ c = '-') := by
  cases l with
  | nil => simp [matchStatus, gs] at h
  | cons c t =>
    refine ⟨c, t, rfl, ?_⟩
    by_cases hs : goSpace c = true
    · exact Or.inl hs
    · by_cases hc : c = '-'
      · exact Or.inr hc
      · rw [matchStatus_none_head c t (by simpa using hs) hc] at h
        cases h

/-- A line accepted by `regexStatus` is not accepted by `regexResult`. -/
theorem matchResult_none_of_status {l : GoStr} {m : StatusMatch}
    (h : matchStatus l = some m) : matchResult l = none := by
  obtain ⟨c, t, rfl, hc⟩ := matchStatus_head h
  have hco : c ≠ 'o' ∧ c ≠ 'F' := by
    rcases hc with hs | hs
    · rcases goSpace_char c hs with h | h | h | h | h <;> subst h <;> exact ⟨by decide, by decide⟩
    · subst hs; exact ⟨by decide, by decide⟩
  have h1 : (gs "ok").isPrefixOf (c :: t) = false := by
    have : gs "ok" = 'o' :: gs "k" := rfl
    rw [this]
    simp [List.isPrefixOf, Ne.symm hco.1]
  have h2 : (gs "FAIL").isPrefixOf (c :: t) = false := by
    have : gs "FAIL" = 'F' :: gs "AIL" := rfl
    rw [this]
    simp [List.isPrefixOf, Ne.symm hco.2]
  simp [matchResult, h1, h2]

/-- A line accepted by `regexStatus` does not start with `=== RUN `. -/
theorem not_run_of_status {l : GoStr} {m : StatusMatch}
    (h : matchStatus l = some m) : (gs "=== RUN ").isPrefixOf l = false := by
  obtain ⟨c, t, rfl, hc⟩ := matchStatus_head h
  have hco : c ≠ '=' := by
    rcases hc with hs | hs
    · rcases goSpace_char c hs with h | h | h | h | h <;> subst h <;> decide
    · subst hs; decide
  have : gs "=== RUN " = '=' :: gs "== RUN " := rfl
  rw [this]
  simp [List.isPrefixOf, Ne.symm hco]

/-- A line accepted by `regexStatus` is not a destroy-start marker (the
latter begins with a digit). -/
theorem matchDestroyStart_false_of_status {l : GoStr} {m : StatusMatch}
    (h : matchStatus l = some m) : matchDestroyStart l = false := by
  obtain ⟨c, t, rfl, hc⟩ := matchStatus_head h
  have hd : isDigitC c = false := by
    rcases hc with hs | hs
    · exact isDigitC_false_of_goSpace hs
    · subst hs; decide
  simp [matchDestroyStart, dateShape, matchShape, hd]

/-- A line accepted by `regexResult` starts with `o` or `F`. -/
theorem matchResult_head {l : GoStr} {m : ResultMatch}
    (h : matchResult l = some m) : ∃ c t, l = c :: t ∧ (c = 'o' ∨ c = 'F') := by
  unfold matchResult at h
  by_cases h1 : (gs "ok").isPrefixOf l = true
  · cases l with
    | nil => simp [gs, List.isPrefixOf] at h1
    | cons c t =>
      have : gs "ok" = 'o' :: gs "k" := rfl
      rw [this] at h1
      simp [List.isPrefixOf] at h1
      exact ⟨c, t, rfl, Or.inl h1.1.symm⟩
  · by_cases h2 : (gs "FAIL").isPrefixOf l = true
    · cases l with
      | nil => simp [gs, List.isPrefixOf] at h2
      | cons c t =>
        have : gs "FAIL" = 'F' :: gs "AIL" := rfl
        rw [this] at h2
        simp [List.isPrefixOf] at h2
        exact ⟨c, t, rfl, Or.inr h2.1.symm⟩
    · simp [h1, h2] at h

/-- A line accepted by `regexResult` does not start with `=== RUN `. -/
theorem not_run_of_result {l : GoStr} {m : ResultMatch}
    (h : matchResult l = some m) : (gs "=== RUN ").isPrefixOf l = false := by
  obtain ⟨c, t, rfl, hc⟩ := matchResult_head h
  have hco : c ≠ '=' := by rcases hc with hs | hs <;> subst hs <;> decide
  have : gs "=== RUN " = '=' :: gs "== RUN " := rfl
  rw [this]
  simp [List.isPrefixOf, Ne.symm hco]

/-- A `=== RUN `-prefixed line is not a destroy-start marker. -/
theorem matchDestroyStart_false_of_run {l : GoStr}
    (h : (gs "=== RUN ").isPrefixOf l = true) : matchDestroyStart l = false := by
  cases l with
  | nil => simp [gs, List.isPrefixOf] at h
  | cons c t =>
    have : gs "=== RUN " = '=' :: gs "== RUN " := rfl
    rw [this] at h
    simp [List.isPrefixOf] at h
    obtain ⟨rfl, -⟩ := h
    have hd : isDigitC '=' = false := by decide
    simp [matchDestroyStart, dateShape, matchShape, hd]

/-! ### Supporting lemmas: the phase analyzer -/

theorem pCDS_name (t : Test) : (processCreateDestroySections t).name = t.name := rfl

theorem pCDS_result (t : Test) :
    (processCreateDestroySections t).result = t.result := rfl

theorem pCDS_time (t : Test) : (processCreateDestroySections t).time = t.time := rfl

theorem pCDS_output (t : Test) :
    (processCreateDestroySections t).output = t.output := rfl

/-- The analyzer is the identity on a test whose create buffer has at most
one line and whose destroy buffer is empty: the create scan's outer loop
breaks at its first iteration (`linesProcessed == len-1` holds at `0`) and
the destroy scan never starts. -/
theorem createOuter_short (lines : List GoStr) (h : lines.length ≤ 1)
    (s : PhaseState) : createOuter lines 0 0 s = s := by
  rcases lines with - | ⟨x, xs⟩
  · rw [createOuter]
    simp
  · rcases xs with - | ⟨y, ys⟩
    · rw [createOuter]
      simp
    · simp at h

theorem destroyOuter_short (lines : List GoStr) (h : lines.length ≤ 1)
    (s : PhaseState) : destroyOuter lines 0 0 s = s := by
  rcases lines with - | ⟨x, xs⟩
  · rw [destroyOuter]
    simp
  · rcases xs with - | ⟨y, ys⟩
    · rw [destroyOuter]
      simp
    · simp at h

/-- The analyzer is the identity on a test whose create buffer has at most
one line and whose destroy buffer has at most one line: each scan's outer
loop breaks at its first iteration (`linesProcessed == len-1` already
holds at `0`), or never starts. -/
theorem pCDS_short (t : Test) (h1 : t.createText.length ≤ 1)
    (h2 : t.destroyText.length ≤ 1) : processCreateDestroySections t = t := by
  unfold processCreateDestroySections
  simp only [createOuter_short _ h1, destroyOuter_short _ h2]

theorem updateAt_get? (ts : List Test) (i : Nat) (f : Test → Test) :
    (updateAt ts i f).get? i = (ts.get? i).map f := by
  induction ts generalizing i with
  | nil => simp [updateAt]
  | cons x xs ih =>
    cases i with
    | zero => simp [updateAt]
    | succ n => simpa [updateAt] using ih n

theorem updateAt_length (ts : List Test) (i : Nat) (f : Test → Test) :
    (updateAt ts i f).length = ts.length := by
  induction ts generalizing i with
  | nil => rfl
  | cons x xs ih =>
    cases i with
    | zero => simp [updateAt]
    | succ n => simpa [updateAt] using ih n

/-! ### Supporting lemmas: `phaseSplit` and the line loop -/

/-- The trailing create/destroy split touches only `tests` and
`isCreate`. -/
theorem phaseSplit_fields (st : ParseState) (l : GoStr) :
    (phaseSplit st l).packages = st.packages ∧
    (phaseSplit st l).testsTime = st.testsTime ∧
    (phaseSplit st l).cur = st.cur ∧
    (phaseSplit st l).seenSummary = st.seenSummary ∧
    (phaseSplit st l).coveragePct = st.coveragePct ∧
    (phaseSplit st l).packageCaptures = st.packageCaptures ∧
    (phaseSplit st l).capturedPackage = st.capturedPackage ∧
    (phaseSplit st l).buffer = st.buffer := by
  unfold phaseSplit
  rcases findTestIdx st.tests st.cur with - | i
  · exact ⟨rfl, rfl, rfl, rfl, rfl, rfl, rfl, rfl⟩
  · by_cases h1 : matchDestroyStart l = true
    · simp [h1]
    · by_cases h2 : st.isCreate = true <;> simp [h1, h2]

/-- The split leaves the tests' names (and everything except the raw
buffers) untouched elementwise; in particular the name list is
preserved. -/
theorem phaseSplit_map_name (st : ParseState) (l : GoStr) :
    (phaseSplit st l).tests.map Test.name = st.tests.map Test.name := by
  unfold phaseSplit
  rcases findTestIdx st.tests st.cur with - | i
  · rfl
  · by_cases h1 : matchDestroyStart l = true
    · simp only [h1, if_true]
      exact map_name_updateAt _ _ _ (fun t _ => rfl)
    · by_cases h2 : st.isCreate = true <;>
        simp only [h1, h2, if_true, if_false, Bool.false_eq_true] <;>
        exact map_name_updateAt _ _ _ (fun t _ => rfl)

/-- A read error anywhere in the event stream aborts the loop with that
error, whatever came before it. -/
theorem runLines_err (e : Nat) (rest : List InEvent) :
    ∀ (pre : List GoStr) (st : ParseState),
      runLines st (pre.map InEvent.line ++ InEvent.readErr e :: rest) =
        Except.error e := by
  intro pre
  induction pre with
  | nil => intro st; rfl
  | cons l ls ih => intro st; exact ih (processLine st l)

/-- An error-free event stream runs the whole loop and folds
`processLine`. -/
theorem runLines_ok (lines : List GoStr) :
    ∀ st : ParseState,
      runLines st (lines.map InEvent.line) =
        Except.ok (lines.foldl processLine st) := by
  induction lines with
  | nil => intro st; rfl
  | cons l ls ih => intro st; exact ih (processLine st l)

/-- `Parse` on an error-free stream is `parseLines`. -/
theorem Parse_ok_on_lines (lines : List GoStr) (pkg : GoStr) :
    Parse (lines.map InEvent.line) pkg = Except.ok (parseLines lines pkg) := by
  unfold Parse parseLines
  rw [runLines_ok]
  rfl

/-! ### The claims -/

/-- **C8.** Parse is deterministic: for every pair of runs of Parse on
byte-for-byte identical input text and the same fallback package name,
the two returned Reports are structurally equal.  (The embedding of
`Parse` is a pure function of the event stream and the fallback name: no
state survives an invocation, the only map in the parser is read and
written pointwise by key, never iterated, and the console diagnostics do
not reach the report; so two runs on equal inputs agree.) -/
theorem parse_deterministic (ev₁ ev₂ : List InEvent) (pkg₁ pkg₂ : GoStr)
    (hev : ev₁ = ev₂) (hpkg : pkg₁ = pkg₂) :
    Parse ev₁ pkg₁ = Parse ev₂ pkg₂ := by
  rw [hev, hpkg]

theorem parse_deterministic_witness :
    Parse [InEvent.line (gs "=== RUN TestA")] (gs "pkg") =
      Parse [InEvent.line (gs "=== RUN TestA")] (gs "pkg") :=
  parse_deterministic _ _ _ _ rfl rfl

/-- **C7.** A read error other than end-of-stream makes `Parse` return
that error immediately with no report (the `Except.error` carries no
report value); end-of-stream (the end of the event list) terminates the
loop normally and `Parse` returns a report with no error. -/
theorem parse_read_error :
    (∀ (pre : List GoStr) (e : Nat) (rest : List InEvent) (pkg : GoStr),
      Parse (pre.map InEvent.line ++ InEvent.readErr e :: rest) pkg =
        Except.error e) ∧
    (∀ (lines : List GoStr) (pkg : GoStr),
      Parse (lines.map InEvent.line) pkg = Except.ok (parseLines lines pkg)) := by
  constructor
  · intro pre e rest pkg
    unfold Parse
    rw [runLines_err]
    rfl
  · exact Parse_ok_on_lines

/-- `statusUpdate` renames the test to the matched name (which `findTest`
already guarantees is its name). -/
theorem statusUpdate_name (m : StatusMatch) (b : List GoStr) (t : Test) :
    (statusUpdate m b t).name = m.name := by
  have e1 : ¬(gs "SKIP" = gs "PASS") := by decide
  by_cases h1 : m.kind = gs "PASS" <;> by_cases h2 : m.kind = gs "SKIP" <;>
    simp [statusUpdate, clearCreateDestroyText, h1, h2, e1, pCDS_name]

/-- On a FAIL or SKIP status match, `statusUpdate` is: set the outcome,
clear both raw phase buffers, flush the buffer into the output, set name
and duration — and no phase analysis. -/
theorem statusUpdate_fail_skip (m : StatusMatch) (b : List GoStr) (t : Test)
    (hk : m.kind = gs "FAIL" ∨ m.kind = gs "SKIP") :
    statusUpdate m b t =
      { t with result := if m.kind = gs "FAIL" then Result.FAIL else Result.SKIP,
               createText := [], destroyText := [],
               output := t.output ++ b, name := m.name,
               time := parseTime m.dur } := by
  have h1 : gs "FAIL" ≠ gs "PASS" := by decide
  have h2 : gs "SKIP" ≠ gs "PASS" := by decide
  have h3 : gs "FAIL" ≠ gs "SKIP" := by decide
  have h4 : gs "SKIP" ≠ gs "FAIL" := by decide
  rcases hk with hk | hk <;>
    simp [statusUpdate, clearCreateDestroyText, hk, h1, h2, h3, h4]

/-- **C2 (counterexample).** After `Parse` has processed a FAIL status
line, the test's raw buffers are *not* empty: the loop's trailing
create/destroy split runs after the status branch cleared them and
appends the status line itself to the create buffer.  Concretely, on
`=== RUN TestA` / `--- FAIL: TestA (0.10s)` the finished report's test has
`CreateText = ["--- FAIL: TestA (0.10s)"]`. -/
theorem fail_buffers_not_empty :
    ((parseLines [gs "=== RUN TestA", gs "--- FAIL: TestA (0.10s)"]
        (gs "pkg")).packages.head?.map
      fun p => p.tests.map fun t => (t.result, t.createText, t.destroyText)) =
      some [(Result.FAIL, [gs "--- FAIL: TestA (0.10s)"], [])] ∧
    ([gs "--- FAIL: TestA (0.10s)"] ≠ ([] : List GoStr)) := by
  constructor
  · decide
  · decide

/-- **C2 (amended).** For every test whose status line reads FAIL or SKIP,
processing that status line clears the test's CreateText and DestroyText
buffers and never invokes phase analysis — but the same iteration's
trailing phase split then appends the status line itself to the buffer of
the current phase, so immediately after the line is processed the two
buffers together hold exactly that status line (in CreateText when the
builder is in the create phase, in DestroyText otherwise), rather than
being empty. -/
theorem status_fail_skip_buffers (st : ParseState) (l : GoStr)
    (m : StatusMatch) (i : Nat)
    (hm : matchStatus l = some m)
    (hk : m.kind = gs "FAIL" ∨ m.kind = gs "SKIP")
    (hi : findTestIdx st.tests m.name = some i) :
    ∃ t, (processLine st l).tests.get? i = some t ∧
      t.result = (if m.kind = gs "FAIL" then Result.FAIL else Result.SKIP) ∧
      (if st.isCreate then t.createText = [l] ∧ t.destroyText = []
       else t.createText = [] ∧ t.destroyText = [l]) := by
  obtain ⟨t0, ht0, hname⟩ := findTestIdx_name hi
  have hrun := not_run_of_status hm
  have hres := matchResult_none_of_status hm
  have hds := matchDestroyStart_false_of_status hm
  unfold processLine
  simp only [hrun, Bool.false_eq_true, if_false, hres, hm, hi]
  set f := statusUpdate m st.buffer with hf
  have hfname : ∀ t, st.tests.get? i = some t → (f t).name = t.name := by
    intro t ht
    rw [ht0] at ht
    injection ht with ht
    subst ht
    rw [hf, statusUpdate_name, hname]
  have hmap : (updateAt st.tests i f).map Test.name = st.tests.map Test.name :=
    map_name_updateAt _ _ _ hfname
  unfold phaseSplit
  simp only [hds, Bool.false_eq_true, if_false]
  rw [show (findTestIdx (updateAt st.tests i f) m.name) = some i from
    (findTestIdx_congr m.name hmap).trans hi]
  have hft0 : f t0 =
      { t0 with result := if m.kind = gs "FAIL" then Result.FAIL else Result.SKIP,
                createText := [], destroyText := [],
                output := t0.output ++ st.buffer, name := m.name,
                time := parseTime m.dur } := statusUpdate_fail_skip m st.buffer t0 hk
  by_cases hic : st.isCreate = true
  · simp only [hic, if_true]
    refine ⟨{ t0 with
        result := if m.kind = gs "FAIL" then Result.FAIL else Result.SKIP,
        createText := [l], destroyText := [],
        output := t0.output ++ st.buffer, name := m.name,
        time := parseTime m.dur }, ?_, rfl, by simp⟩
    rw [updateAt_get?, updateAt_get?, ht0]
    simp only [Option.map_some']
    rw [hft0]
    rfl
  · have hic' : st.isCreate = false := by
      revert hic
      cases st.isCreate <;> simp
    simp only [hic', Bool.false_eq_true, if_false]
    refine ⟨{ t0 with
        result := if m.kind = gs "FAIL" then Result.FAIL else Result.SKIP,
        createText := [], destroyText := [l],
        output := t0.output ++ st.buffer, name := m.name,
        time := parseTime m.dur }, ?_, rfl, by simp [hic']⟩
    rw [updateAt_get?, updateAt_get?, ht0]
    simp only [Option.map_some']
    rw [hft0]
    rfl

theorem status_fail_skip_buffers_witness :
    ∃ t, (processLine
        { initState with tests := [newTest (gs "TestA")], isCreate := true }
        (gs "--- FAIL: TestA (0.10s)")).tests.get? 0 = some t ∧
      t.result = Result.FAIL ∧
      t.createText = [gs "--- FAIL: TestA (0.10s)"] ∧ t.destroyText = [] := by
  obtain ⟨t, h1, h2, h3⟩ :=
    status_fail_skip_buffers
      { initState with tests := [newTest (gs "TestA")], isCreate := true }
      (gs "--- FAIL: TestA (0.10s)")
      ⟨gs "FAIL", gs "TestA", gs "0.10"⟩ 0
      (by decide) (Or.inl rfl) (by decide)
  refine ⟨t, h1, by simpa using h2, ?_⟩
  simpa using h3

/-- **C3 (counterexample).** The build-failure branch has no
"no tests collected yet" guard: on `=== RUN TestA` followed by
`FAIL mypkg [build failed]`, a test has already been collected and the
dummy `[build failed]` test is synthesized anyway, so the finalized
package holds two tests — refuting the claimed "if and only if". -/
theorem build_failed_dummy_counterexample :
    ((parseLines [gs "=== RUN TestA", gs "FAIL mypkg [build failed]"]
        (gs "pkg")).packages.head?.map fun p => p.tests.map fun t => t.name) =
      some [gs "TestA", gs "[build failed]"] ∧
    (some [gs "TestA", gs "[build failed]"] ≠
      (some [gs "TestA"] : Option (List GoStr))) := by
  constructor
  · decide
  · decide

/-- **C3 (amended).** When a package-result line matches the build-failure
shape (`[... failed]`), `Parse` appends one synthesized failing Test named
after the reported reason and carrying the captured build output for that
package name — *unconditionally*, whether or not tests have already been
collected (the synthesized test is appended after any collected ones).
In particular, with no preceding `=== RUN` lines, exactly one such Test is
synthesized per failed package and its Output equals the lines captured
after the `# <package>` marker, in order. -/
theorem build_failed_dummy :
    (∀ (st : ParseState) (l : GoStr) (m : ResultMatch),
      matchResult l = some m →
      goHasSuffix m.failed (gs "failed]") = true →
      (processLine st l).packages = st.packages ++
        [⟨m.pkg, parseTime m.dur,
          st.tests ++ [dummyTest m.failed (lookupCapture st.packageCaptures m.pkg)],
          if m.cov ≠ [] then m.cov else st.coveragePct⟩]) ∧
    (((parseLines [gs "# mypkg", gs "err1", gs "err2",
        gs "FAIL mypkg [build failed]"] (gs "pkg")).packages.head?.map
      fun p => p.tests.map fun t => (t.name, t.result, t.output)) =
      some [(gs "[build failed]", Result.FAIL, [gs "err1", gs "err2"])]) := by
  constructor
  · intro st l m hm hf
    have hrun := not_run_of_result hm
    unfold processLine
    simp only [hrun, Bool.false_eq_true, if_false, hm]
    rw [(phaseSplit_fields _ l).1]
    simp only [hf, if_true]
  · decide

theorem build_failed_dummy_witness :
    (processLine initState (gs "FAIL p [build failed]")).packages =
      [⟨gs "p", parseTime [], [dummyTest (gs "[build failed]") []], []⟩] := by
  have h := build_failed_dummy.1 initState (gs "FAIL p [build failed]")
    ⟨gs "FAIL", gs "p", [], gs "[build failed]", []⟩ (by decide) (by decide)
  simpa using h

/-- **C10.** On every error-free input, the returned report's package list
is non-empty and its last package carries the supplied fallback name: the
fallback package is appended unconditionally at end-of-input.  When the
last input line is a matched package-result line (so every test was
already finalized), the trailing package has an empty test list and zero
duration (and an empty coverage string). -/
theorem trailing_fallback_package :
    ∀ (lines : List GoStr) (pkg : GoStr),
      (parseLines lines pkg).packages ≠ [] ∧
      (∃ p, (parseLines lines pkg).packages.getLast? = some p ∧ p.name = pkg) ∧
      (∀ (xs : List GoStr) (r : GoStr) (m : ResultMatch),
        lines = xs ++ [r] → matchResult r = some m →
        (parseLines lines pkg).packages.getLast? = some ⟨pkg, 0, [], []⟩) := by
  intro lines pkg
  refine ⟨by simp [parseLines], ?_, ?_⟩
  · refine ⟨⟨pkg, (lines.foldl processLine initState).testsTime,
      (lines.foldl processLine initState).tests,
      (lines.foldl processLine initState).coveragePct⟩, ?_, rfl⟩
    simp [parseLines]
  · rintro xs r m rfl hm
    have hrun := not_run_of_result hm
    unfold parseLines
    rw [List.foldl_append]
    set st := xs.foldl processLine initState with hst
    simp only [List.foldl_cons, List.foldl_nil]
    have hfin : ∀ (st' : ParseState), st'.tests = [] ∧ st'.testsTime = 0 ∧
        st'.coveragePct = [] →
        (⟨st'.packages ++ [⟨pkg, st'.testsTime, st'.tests, st'.coveragePct⟩]⟩ :
          Report).packages.getLast? = some ⟨pkg, 0, [], []⟩ := by
      intro st' ⟨h1, h2, h3⟩
      simp [h1, h2, h3]
    refine hfin _ ?_
    unfold processLine
    simp only [hrun, Bool.false_eq_true, if_false, hm]
    set st1 : ParseState :=
      { st with
          packages := _, buffer := [], tests := [], coveragePct := [],
          cur := [], testsTime := 0 } with hst1
    have hts : (phaseSplit st1 r).tests = st1.tests := by
      unfold phaseSplit
      have : findTestIdx st1.tests st1.cur = none := rfl
      rw [this]
    refine ⟨?_, ?_, ?_⟩
    · rw [hts]
    · exact (phaseSplit_fields st1 r).2.1
    · exact (phaseSplit_fields st1 r).2.2.2.2.1

theorem trailing_fallback_package_witness :
    (parseLines [gs "ok p 1.00s"] (gs "fb")).packages ≠ [] ∧
    (parseLines [gs "ok p 1.00s"] (gs "fb")).packages.getLast? =
      some ⟨gs "fb", 0, [], []⟩ := by
  obtain ⟨h1, -, h3⟩ := trailing_fallback_package [gs "ok p 1.00s"] (gs "fb")
  exact ⟨h1, h3 [] (gs "ok p 1.00s") ⟨gs "ok", gs "p", gs "1.00", [], []⟩
    rfl (by decide)⟩

/-- Every failing path of the RFC3339 parse model returns the zero time
with the error flag set; a successful parse has the flag clear. -/
theorem goTimeParse_cases (s : GoStr) :
    goTimeParse s = (0, true) ∨ (goTimeParse s).2 = false := by
  unfold goTimeParse
  dsimp only
  repeat' split
  all_goals first | exact Or.inl rfl | exact Or.inr rfl

/-- **C6.** `convertToRFC3339` rewrites any string in which the
`YYYY/MM/DD HH:MM:SS` pattern occurs into an offset-qualified RFC3339
timestamp with the fixed offset `+08:00` (built from the six captured
digit groups), returns strings without the pattern unchanged, and the
`time.Parse` model yields the zero time on every string it cannot parse —
the analyzer reads only the time component of the `(Time, error)` pair
(`startTime, _ := time.Parse(...)` in the Go code; `.1` at the
`goTimeParse` call sites of `createInner`/`destroyInner`), so no error is
surfaced to the caller. -/
theorem timestamp_conversion :
    (∀ (s y mo d h mi se : GoStr),
      findTimeFormat s = some (y, mo, d, h, mi, se) →
      convertToRFC3339 s =
        y ++ '-' :: mo ++ '-' :: d ++ 'T' :: h ++ ':' :: mi ++ ':' :: se ++
          gs "+08:00") ∧
    (∀ s : GoStr, findTimeFormat s = none → convertToRFC3339 s = s) ∧
    (∀ s : GoStr, (goTimeParse s).2 = true → (goTimeParse s).1 = 0) := by
  refine ⟨?_, ?_, ?_⟩
  · intro s y mo d h mi se hf
    unfold convertToRFC3339
    rw [hf]
  · intro s hf
    unfold convertToRFC3339
    rw [hf]
  · intro s h
    rcases goTimeParse_cases s with hc | hc
    · rw [hc]
    · rw [h] at hc
      cases hc

theorem timestamp_conversion_witness :
    convertToRFC3339 (gs "2017/06/01 12:30:05 [INFO] log line") =
      gs "2017-06-01T12:30:05+08:00" ∧
    convertToRFC3339 (gs "no timestamp here") = gs "no timestamp here" ∧
    (goTimeParse (gs "no timestamp here")).1 = 0 := by
  refine ⟨?_, ?_, ?_⟩
  · rw [timestamp_conversion.1 (gs "2017/06/01 12:30:05 [INFO] log line")
      (gs "2017") (gs "06") (gs "01") (gs "12") (gs "30") (gs "05") rfl]
    decide
  · exact timestamp_conversion.2.1 (gs "no timestamp here") rfl
  · exact timestamp_conversion.2.2 (gs "no timestamp here") (by decide)

/-- `addAction` leaves a list containing the action untouched and appends
a fresh action at the end. -/
theorem addAction_spec (as : List ACTION) (a : GoStr) :
    addAction as a =
      if actionFromString a ∈ as then as else as ++ [actionFromString a] := by
  unfold addAction
  by_cases h0 : as = []
  · subst h0
    simp
  · by_cases hmem : actionFromString a ∈ as
    · simp [h0, List.elem_iff, hmem]
    · simp [h0, List.elem_iff, hmem]

/-- `addAction` preserves distinctness. -/
theorem addAction_nodup (as : List ACTION) (a : GoStr) (h : as.Nodup) :
    (addAction as a).Nodup := by
  rw [addAction_spec]
  by_cases hmem : actionFromString a ∈ as
  · simpa [hmem] using h
  · simp [hmem, List.nodup_append, h]

/-- One-step equation: a create/update/destroy action line. -/
theorem createInner_step_cud {lines : List GoStr} {i : Nat} {verb res : GoStr}
    (h : i < lines.length) (hcud : matchCUD (lines.get ⟨i, h⟩) = some (verb, res))
    (lp : Nat) (s : PhaseState) :
    createInner lines i lp s =
      createInner lines (i + 1) i { s with rt := cudStep s.rt verb res } := by
  rw [createInner.eq_def, dif_pos h]
  simp only [hcud]

/-- One-step equation: a graph-apply start marker whose end marker exists;
the completed step (with the computed duration) moves into `steps`, the
running total and `CreateTime` advance, and the in-progress record is
fully reset. -/
theorem createInner_step_apply {lines : List GoStr} {i x : Nat}
    {hx : x < lines.length ∧ i ≤ x}
    (h : i < lines.length) (hcud : matchCUD (lines.get ⟨i, h⟩) = none)
    (hga : matchGraphApply (lines.get ⟨i, h⟩) = true)
    (hfe : findEndFrom lines matchGraphPlan i = some ⟨x, hx⟩)
    (lp : Nat) (s : PhaseState) :
    ∃ dur : ℚ,
      createInner lines i lp s =
        createInner lines (x + 1) i
          { s with rt := ⟨[], 0, []⟩,
                   steps := s.steps ++ [{ s.rt with duration := dur }],
                   total := qadd s.total dur,
                   createTime := qadd s.total dur } := by
  refine ⟨durToQ (goSub (goTimeParse (convertToRFC3339 (lines.get ⟨x, hx.1⟩))).1
    (goTimeParse (convertToRFC3339 (lines.get ⟨i, h⟩))).1), ?_⟩
  rw [createInner.eq_def, dif_pos h]
  simp only [hcud, hga, if_true, hfe]

/-- One-step equation: a start marker with no end marker, or an
unrecognized line. -/
theorem createInner_step_skip {lines : List GoStr} {i : Nat}
    (h : i < lines.length) (hcud : matchCUD (lines.get ⟨i, h⟩) = none)
    (hskip : matchGraphApply (lines.get ⟨i, h⟩) = false ∨
      findEndFrom lines matchGraphPlan i = none)
    (lp : Nat) (s : PhaseState) :
    createInner lines i lp s = createInner lines (i + 1) i s := by
  by_cases hga : matchGraphApply (lines.get ⟨i, h⟩) = true
  · have hfe : findEndFrom lines matchGraphPlan i = none := by
      rcases hskip with hs | hs
      · rw [hga] at hs
        cases hs
      · exact hs
    rw [createInner.eq_def, dif_pos h]
    simp only [hcud, hga, if_true, hfe]
  · rw [createInner.eq_def, dif_pos h]
    simp only [hcud, if_neg hga]

theorem createInner_stop {lines : List GoStr} {i : Nat}
    (h : ¬ i < lines.length) (lp : Nat) (s : PhaseState) :
    createInner lines i lp s = (s, lp) := by
  rw [createInner.eq_def, dif_neg h]

theorem destroyInner_step_cud {lines : List GoStr} {i : Nat} {verb res : GoStr}
    (h : i < lines.length) (hcud : matchCUD (lines.get ⟨i, h⟩) = some (verb, res))
    (lp : Nat) (s : PhaseState) :
    destroyInner lines i lp s =
      destroyInner lines (i + 1) i { s with rt := cudStep s.rt verb res } := by
  rw [destroyInner.eq_def, dif_pos h]
  simp only [hcud]

/-- One-step equation for a completed destroy step: `drt` keeps its
accumulated fields (nothing is reset), a copy goes to `CleanUp`, and the
derived `TestOverhead`/`CreateDestroyTime` are recomputed. -/
theorem destroyInner_step_apply {lines : List GoStr} {i x : Nat}
    {hx : x < lines.length ∧ i ≤ x}
    (h : i < lines.length) (hcud : matchCUD (lines.get ⟨i, h⟩) = none)
    (hga : matchGraphApply (lines.get ⟨i, h⟩) = true)
    (hfe : findEndFrom lines matchGraphDestroy i = some ⟨x, hx⟩)
    (lp : Nat) (s : PhaseState) :
    ∃ dur : ℚ,
      destroyInner lines i lp s =
        destroyInner lines (x + 1) i
          { s with rt := { s.rt with duration := dur },
                   cleanUp := s.cleanUp ++ [{ s.rt with duration := dur }],
                   total := qadd s.total dur,
                   testOverhead := qsub (qmul s.testTime (mkRat 1000000000 1)) (qadd s.total dur),
                   createDestroyTime := qadd s.total dur } := by
  refine ⟨durToQ (goSub (goTimeParse (convertToRFC3339 (lines.get ⟨x, hx.1⟩))).1
    (goTimeParse (convertToRFC3339 (lines.get ⟨i, h⟩))).1), ?_⟩
  rw [destroyInner.eq_def, dif_pos h]
  simp only [hcud, hga, if_true, hfe]

theorem destroyInner_step_skip {lines : List GoStr} {i : Nat}
    (h : i < lines.length) (hcud : matchCUD (lines.get ⟨i, h⟩) = none)
    (hskip : matchGraphApply (lines.get ⟨i, h⟩) = false ∨
      findEndFrom lines matchGraphDestroy i = none)
    (lp : Nat) (s : PhaseState) :
    destroyInner lines i lp s = destroyInner lines (i + 1) i s := by
  by_cases hga : matchGraphApply (lines.get ⟨i, h⟩) = true
  · have hfe : findEndFrom lines matchGraphDestroy i = none := by
      rcases hskip with hs | hs
      · rw [hga] at hs
        cases hs
      · exact hs
    rw [destroyInner.eq_def, dif_pos h]
    simp only [hcud, hga, if_true, hfe]
  · rw [destroyInner.eq_def, dif_pos h]
    simp only [hcud, if_neg hga]

theorem destroyInner_stop {lines : List GoStr} {i : Nat}
    (h : ¬ i < lines.length) (lp : Nat) (s : PhaseState) :
    destroyInner lines i lp s = (s, lp) := by
  rw [destroyInner.eq_def, dif_neg h]

/-- Invariant of the create scan's inner loop: the in-progress action set
stays duplicate-free, every step appended beyond the pre-existing `base`
has a duplicate-free action set, and `CleanUp` is untouched. -/
theorem createInner_props (lines : List GoStr) (base : List ResourceTime) :
    ∀ (n i lp : Nat) (s : PhaseState), lines.length - i ≤ n →
      s.rt.action.Nodup →
      (∀ rt ∈ s.steps, rt ∈ base ∨ rt.action.Nodup) →
      ((createInner lines i lp s).1.rt.action.Nodup ∧
       (∀ rt ∈ (createInner lines i lp s).1.steps, rt ∈ base ∨ rt.action.Nodup) ∧
       (createInner lines i lp s).1.cleanUp = s.cleanUp) := by
  intro n
  induction n with
  | zero =>
    intro i lp s hn h1 h2
    rw [createInner_stop (by omega)]
    exact ⟨h1, h2, rfl⟩
  | succ n ih =>
    intro i lp s hn h1 h2
    by_cases h : i < lines.length
    · cases hcud : matchCUD (lines.get ⟨i, h⟩) with
      | some vr =>
        obtain ⟨verb, res⟩ := vr
        rw [createInner_step_cud h hcud]
        exact ih (i + 1) i _ (by omega)
          (addAction_nodup s.rt.action verb h1) h2
      | none =>
        by_cases hga : matchGraphApply (lines.get ⟨i, h⟩) = true
        · cases hfe : findEndFrom lines matchGraphPlan i with
          | some u =>
            obtain ⟨x, hx⟩ := u
            obtain ⟨dur, hstep⟩ := createInner_step_apply h hcud hga hfe lp s
            rw [hstep]
            refine ih (x + 1) i _ (by omega) (by simp) ?_
            intro rt hrt
            rcases List.mem_append.mp hrt with hrt | hrt
            · exact h2 rt hrt
            · rcases List.mem_singleton.mp hrt with rfl
              exact Or.inr h1
          | none =>
            rw [createInner_step_skip h hcud (Or.inr hfe)]
            exact ih (i + 1) i s (by omega) h1 h2
        · rw [createInner_step_skip h hcud
            (Or.inl (by revert hga; cases matchGraphApply (lines.get ⟨i, h⟩) <;> simp))]
          exact ih (i + 1) i s (by omega) h1 h2
    · rw [createInner_stop h]
      exact ⟨h1, h2, rfl⟩

/-- Invariant of the destroy scan's inner loop: the in-progress action set
stays duplicate-free, every cleanup entry appended beyond `base` has a
duplicate-free action set, and `Steps` is untouched. -/
theorem destroyInner_props (lines : List GoStr) (base : List ResourceTime) :
    ∀ (n i lp : Nat) (s : PhaseState), lines.length - i ≤ n →
      s.rt.action.Nodup →
      (∀ rt ∈ s.cleanUp, rt ∈ base ∨ rt.action.Nodup) →
      ((destroyInner lines i lp s).1.rt.action.Nodup ∧
       (∀ rt ∈ (destroyInner lines i lp s).1.cleanUp, rt ∈ base ∨ rt.action.Nodup) ∧
       (destroyInner lines i lp s).1.steps = s.steps) := by
  intro n
  induction n with
  | zero =>
    intro i lp s hn h1 h2
    rw [destroyInner_stop (by omega)]
    exact ⟨h1, h2, rfl⟩
  | succ n ih =>
    intro i lp s hn h1 h2
    by_cases h : i < lines.length
    · cases hcud : matchCUD (lines.get ⟨i, h⟩) with
      | some vr =>
        obtain ⟨verb, res⟩ := vr
        rw [destroyInner_step_cud h hcud]
        exact ih (i + 1) i _ (by omega)
          (addAction_nodup s.rt.action verb h1) h2
      | none =>
        by_cases hga : matchGraphApply (lines.get ⟨i, h⟩) = true
        · cases hfe : findEndFrom lines matchGraphDestroy i with
          | some u =>
            obtain ⟨x, hx⟩ := u
            obtain ⟨dur, hstep⟩ := destroyInner_step_apply h hcud hga hfe lp s
            rw [hstep]
            refine ih (x + 1) i _ (by omega) h1 ?_
            intro rt hrt
            rcases List.mem_append.mp hrt with hrt | hrt
            · exact h2 rt hrt
            · rcases List.mem_singleton.mp hrt with rfl
              exact Or.inr h1
          | none =>
            rw [destroyInner_step_skip h hcud (Or.inr hfe)]
            exact ih (i + 1) i s (by omega) h1 h2
        · rw [destroyInner_step_skip h hcud
            (Or.inl (by revert hga; cases matchGraphApply (lines.get ⟨i, h⟩) <;> simp))]
          exact ih (i + 1) i s (by omega) h1 h2
    · rw [destroyInner_stop h]
      exact ⟨h1, h2, rfl⟩

theorem createOuter_step_diff {lines : List GoStr} {ti lp : Nat}
    (h : ti < lines.length) (hlp : ¬ lp = lines.length - 1)
    (hdiff : matchIsDiff (lines.get ⟨ti, h⟩) = true) (s : PhaseState) :
    createOuter lines ti lp s =
      createOuter lines (ti + 1) (createInner lines ti lp s).2
        (createInner lines ti lp s).1 := by
  rw [createOuter.eq_def, dif_pos h, if_neg hlp, if_pos hdiff]

theorem destroyOuter_step_diff {lines : List GoStr} {ti lp : Nat}
    (h : ti < lines.length) (hlp : ¬ lp = lines.length - 1)
    (hdiff : matchIsDiff (lines.get ⟨ti, h⟩) = true) (s : PhaseState) :
    destroyOuter lines ti lp s =
      destroyOuter lines (ti + 1) (destroyInner lines ti lp s).2
        (destroyInner lines ti lp s).1 := by
  rw [destroyOuter.eq_def, dif_pos h, if_neg hlp, if_pos hdiff]

/-- The create scan preserves the step/cleanup invariants across the outer
loop. -/
theorem createOuter_props (lines : List GoStr) (base : List ResourceTime) :
    ∀ (n ti lp : Nat) (s : PhaseState), lines.length - ti ≤ n →
      s.rt.action.Nodup →
      (∀ rt ∈ s.steps, rt ∈ base ∨ rt.action.Nodup) →
      ((∀ rt ∈ (createOuter lines ti lp s).steps, rt ∈ base ∨ rt.action.Nodup) ∧
       (createOuter lines ti lp s).cleanUp = s.cleanUp) := by
  intro n
  induction n with
  | zero =>
    intro ti lp s hn h1 h2
    rw [createOuter.eq_def, dif_neg (by omega)]
    exact ⟨h2, rfl⟩
  | succ n ih =>
    intro ti lp s hn h1 h2
    by_cases h : ti < lines.length
    · by_cases hlp : lp = lines.length - 1
      · rw [createOuter.eq_def, dif_pos h, if_pos hlp]
        exact ⟨h2, rfl⟩
      · by_cases hdiff : matchIsDiff (lines.get ⟨ti, h⟩) = true
        · rw [createOuter_step_diff h hlp hdiff]
          obtain ⟨hi1, hi2, hi3⟩ :=
            createInner_props lines base lines.length ti lp s (by omega) h1 h2
          obtain ⟨ho1, ho2⟩ := ih (ti + 1) (createInner lines ti lp s).2
            (createInner lines ti lp s).1 (by omega) hi1 hi2
          exact ⟨ho1, ho2.trans hi3⟩
        · rw [createOuter.eq_def, dif_pos h, if_neg hlp, if_neg hdiff]
          exact ih (ti + 1) lp s (by omega) h1 h2
    · rw [createOuter.eq_def, dif_neg h]
      exact ⟨h2, rfl⟩

/-- The destroy scan preserves the cleanup/step invariants across the
outer loop. -/
theorem destroyOuter_props (lines : List GoStr) (base : List ResourceTime) :
    ∀ (n ti lp : Nat) (s : PhaseState), lines.length - ti ≤ n →
      s.rt.action.Nodup →
      (∀ rt ∈ s.cleanUp, rt ∈ base ∨ rt.action.Nodup) →
      ((∀ rt ∈ (destroyOuter lines ti lp s).cleanUp, rt ∈ base ∨ rt.action.Nodup) ∧
       (destroyOuter lines ti lp s).steps = s.steps) := by
  intro n
  induction n with
  | zero =>
    intro ti lp s hn h1 h2
    rw [destroyOuter.eq_def, dif_neg (by omega)]
    exact ⟨h2, rfl⟩
  | succ n ih =>
    intro ti lp s hn h1 h2
    by_cases h : ti < lines.length
    · by_cases hlp : lp = lines.length - 1
      · rw [destroyOuter.eq_def, dif_pos h, if_pos hlp]
        exact ⟨h2, rfl⟩
      · by_cases hdiff : matchIsDiff (lines.get ⟨ti, h⟩) = true
        · rw [destroyOuter_step_diff h hlp hdiff]
          obtain ⟨hi1, hi2, hi3⟩ :=
            destroyInner_props lines base lines.length ti lp s (by omega) h1 h2
          obtain ⟨ho1, ho2⟩ := ih (ti + 1) (destroyInner lines ti lp s).2
            (destroyInner lines ti lp s).1 (by omega) hi1 hi2
          exact ⟨ho1, ho2.trans hi3⟩
        · rw [destroyOuter.eq_def, dif_pos h, if_neg hlp, if_neg hdiff]
          exact ih (ti + 1) lp s (by omega) h1 h2
    · rw [destroyOuter.eq_def, dif_neg h]
      exact ⟨h2, rfl⟩

/-- **C9.** `addAction` returns its input unchanged whenever the new
action is already present and otherwise appends it at the end (so the
action list is deduplicated, in first-occurrence order); consequently
every `ResourceTime` that the phase analyzer appends to a test's Steps or
CleanUp sequences carries an action list without duplicates. -/
theorem action_lists_nodup :
    (∀ (as : List ACTION) (a : GoStr),
      addAction as a =
        if actionFromString a ∈ as then as else as ++ [actionFromString a]) ∧
    (∀ (as : List ACTION) (a : GoStr), as.Nodup → (addAction as a).Nodup) ∧
    (∀ t : Test,
      (∀ rt ∈ (processCreateDestroySections t).steps,
        rt ∈ t.steps ∨ rt.action.Nodup) ∧
      (∀ rt ∈ (processCreateDestroySections t).cleanUp,
        rt ∈ t.cleanUp ∨ rt.action.Nodup)) := by
  refine ⟨addAction_spec, addAction_nodup, ?_⟩
  intro t
  unfold processCreateDestroySections
  obtain ⟨hc1, hc2⟩ :=
    createOuter_props t.createText t.steps t.createText.length 0 0
      ⟨⟨[], 0, []⟩, t.steps, t.cleanUp, 0, t.createTime, t.testOverhead,
        t.createDestroyTime, t.time⟩
      (by omega) (by simp) (fun rt hrt => Or.inl hrt)
  obtain ⟨hd1, hd2⟩ :=
    destroyOuter_props t.destroyText t.cleanUp t.destroyText.length 0 0
      { createOuter t.createText 0 0
          ⟨⟨[], 0, []⟩, t.steps, t.cleanUp, 0, t.createTime, t.testOverhead,
            t.createDestroyTime, t.time⟩ with rt := ⟨[], 0, []⟩ }
      (by omega) (by simp) (by simpa [hc2] using fun rt hrt => Or.inl hrt)
  constructor
  · intro rt hrt
    simp only at hrt
    rw [hd2] at hrt
    exact hc1 rt hrt
  · intro rt hrt
    simp only at hrt
    exact hd1 rt hrt

theorem action_lists_nodup_witness :
    (addAction [ACTION.CREATE] (gs "CREATE") =
      if actionFromString (gs "CREATE") ∈ [ACTION.CREATE] then [ACTION.CREATE]
      else [ACTION.CREATE] ++ [actionFromString (gs "CREATE")]) ∧
    (addAction [ACTION.CREATE] (gs "UPDATE")).Nodup := by
  constructor
  · exact action_lists_nodup.1 [ACTION.CREATE] (gs "CREATE")
  · exact action_lists_nodup.2.1 [ACTION.CREATE] (gs "UPDATE") (by decide)

theorem specStatusSum_cons (ns : List GoStr) (l : GoStr) (rest : List GoStr) :
    specStatusSum ns (l :: rest) =
      specContrib ns l + specStatusSum (specNames1 ns l) rest := by
  conv_lhs => rw [specStatusSum]
  unfold specContrib specNames1
  by_cases hrun : (gs "=== RUN ").isPrefixOf l = true
  · simp [hrun]
  · simp only [hrun, Bool.false_eq_true, if_false]
    cases hl : matchResult l with
    | some m => simp
    | none =>
      cases hs : matchStatus l with
      | some m => simp
      | none => simp

/-- On a line that is not a package-result line, `processLine` keeps the
package list, evolves the test-name list as the spec-side `specNames1`,
and advances the running duration sum by the spec-side contribution. -/
theorem processLine_no_result (st : ParseState) (l : GoStr)
    (hl : matchResult l = none) :
    (processLine st l).packages = st.packages ∧
    (processLine st l).tests.map Test.name = specNames1 (st.tests.map Test.name) l ∧
    (processLine st l).testsTime =
      st.testsTime + specContrib (st.tests.map Test.name) l := by
  have hmono : ∀ (st1 : ParseState),
      st1.packages = st.packages →
      st1.tests.map Test.name = specNames1 (st.tests.map Test.name) l →
      st1.testsTime = st.testsTime + specContrib (st.tests.map Test.name) l →
      ((phaseSplit st1 l).packages = st.packages ∧
       (phaseSplit st1 l).tests.map Test.name =
         specNames1 (st.tests.map Test.name) l ∧
       (phaseSplit st1 l).testsTime =
         st.testsTime + specContrib (st.tests.map Test.name) l) := by
    intro st1 hp hn ht
    exact ⟨(phaseSplit_fields _ l).1.trans hp,
      (phaseSplit_map_name _ l).trans hn,
      ((phaseSplit_fields _ l).2.1).trans ht⟩
  by_cases hrun : (gs "=== RUN ").isPrefixOf l = true
  · unfold processLine
    simp only [hrun, if_true]
    refine hmono _ rfl ?_ ?_
    · simp [specNames1, hrun, newTest]
    · simp [specContrib, hrun]
  · unfold processLine
    simp only [hrun, Bool.false_eq_true, if_false, hl]
    cases hs : matchStatus l with
    | some m =>
      dsimp only
      cases hidx : findTestIdx st.tests m.name with
      | some i =>
        obtain ⟨t0, ht0, hname⟩ := findTestIdx_name hidx
        refine hmono _ rfl ?_ ?_
        · dsimp only
          rw [map_name_updateAt]
          · simp [specNames1, hrun]
          · intro t ht
            rw [ht0] at ht
            injection ht with ht
            subst ht
            rw [statusUpdate_name, hname]
        · dsimp only
          rw [qadd_eq_add]
          have hmem : m.name ∈ st.tests.map Test.name :=
            findTestIdx_isSome.mp (by simp [hidx])
          simp [specContrib, hrun, hl, hs, hmem]
      | none =>
        refine hmono _ rfl ?_ ?_
        · simp [specNames1, hrun]
        · have hmem : m.name ∉ st.tests.map Test.name := fun hm => by
            have := findTestIdx_isSome.mpr hm
            simp [hidx] at this
          simp [specContrib, hrun, hl, hs, hmem]
    | none =>
      have hcontrib : specContrib (st.tests.map Test.name) l = 0 := by
        simp [specContrib, hrun, hl, hs]
      have hnames : specNames1 (st.tests.map Test.name) l = st.tests.map Test.name := by
        simp [specNames1, hrun]
      cases hc : matchCoverage l with
      | some c =>
        refine hmono _ rfl (by simp [hnames]) (by simp [hcontrib])
      | none =>
        by_cases hcap : st.capturedPackage = [] ∧ (matchOutput l).isSome = true
        · rw [if_pos hcap]
          cases ho : matchOutput l with
          | some payload =>
            dsimp only
            cases hidx : findTestIdx st.tests st.cur with
            | some i =>
              refine hmono _ rfl ?_ (by simp [hcontrib])
              dsimp only
              have hupd := map_name_updateAt st.tests i
                (fun t => { t with output := t.output ++ [payload] }) (fun t _ => rfl)
              rw [hupd]
              simp [hnames]
            | none => exact hmono _ rfl (by simp [hnames]) (by simp [hcontrib])
          | none =>
            rw [ho] at hcap
            simp at hcap
        · rw [if_neg hcap]
          by_cases hsh : (gs "# ").isPrefixOf l = true
          · rw [if_pos hsh]
            exact hmono _ rfl (by simp [hnames]) (by simp [hcontrib])
          · rw [if_neg (by simpa using hsh)]
            by_cases hcp : st.capturedPackage ≠ []
            · rw [if_pos hcp]
              exact hmono _ rfl (by simp [hnames]) (by simp [hcontrib])
            · rw [if_neg hcp]
              by_cases hsum : isSummaryLine l = true
              · rw [if_pos hsum]
                exact hmono _ rfl (by simp [hnames]) (by simp [hcontrib])
              · rw [if_neg (by simpa using hsum)]
                by_cases hseen : st.seenSummary = true
                · rw [if_neg (not_not_intro hseen)]
                  exact hmono _ rfl (by simp [hnames]) (by simp [hcontrib])
                · rw [if_pos hseen]
                  exact hmono _ rfl (by simp [hnames]) (by simp [hcontrib])

/-- Folding the loop over result-line-free input: packages untouched, the
name list follows the spec-side `specNamesAll`, and the time sum advances
by the spec-side `specStatusSum`. -/
theorem foldl_no_result (lines : List GoStr) :
    ∀ st : ParseState, (∀ l ∈ lines, matchResult l = none) →
      ((lines.foldl processLine st).packages = st.packages ∧
       (lines.foldl processLine st).tests.map Test.name =
         specNamesAll (st.tests.map Test.name) lines ∧
       (lines.foldl processLine st).testsTime =
         st.testsTime + specStatusSum (st.tests.map Test.name) lines) := by
  induction lines with
  | nil =>
    intro st h
    exact ⟨rfl, rfl, by simp [specStatusSum]⟩
  | cons l rest ih =>
    intro st h
    have hl : matchResult l = none := h l (List.mem_cons_self l rest)
    have hrest : ∀ l' ∈ rest, matchResult l' = none :=
      fun l' hl' => h l' (List.mem_cons_of_mem l hl')
    obtain ⟨hp, hn, ht⟩ := processLine_no_result st l hl
    obtain ⟨ihp, ihn, iht⟩ := ih (processLine st l) hrest
    rw [List.foldl_cons]
    refine ⟨ihp.trans hp, ?_, ?_⟩
    · rw [ihn, hn]
      rfl
    · rw [iht, hn, ht, specStatusSum_cons]
      ring

/-- **C5.** When no line of the input matches the package-result pattern,
`Parse` returns a report with exactly one package, named with the supplied
fallback package name, whose duration is the sum of the parsed durations
of the status lines that matched a previously started test (stated by
refinement against the spec-side `specStatusSum`). -/
theorem no_result_line_fallback (lines : List GoStr) (pkg : GoStr)
    (h : ∀ l ∈ lines, matchResult l = none) :
    ∃ ts cov, (parseLines lines pkg).packages =
      [⟨pkg, specStatusSum [] lines, ts, cov⟩] := by
  obtain ⟨hp, -, ht⟩ := foldl_no_result lines initState h
  refine ⟨(lines.foldl processLine initState).tests,
    (lines.foldl processLine initState).coveragePct, ?_⟩
  unfold parseLines
  have hp0 : (lines.foldl processLine initState).packages = [] := hp
  have ht0 : (lines.foldl processLine initState).testsTime =
      specStatusSum [] lines := by
    rw [ht]
    simp [initState]
  rw [hp0, ht0]
  rfl

theorem no_result_line_fallback_witness :
    ∃ ts cov,
      (parseLines [gs "=== RUN TestA", gs "--- PASS: TestA (1.50s)"]
        (gs "fb")).packages =
      [⟨gs "fb",
        specStatusSum [] [gs "=== RUN TestA", gs "--- PASS: TestA (1.50s)"],
        ts, cov⟩] :=
  no_result_line_fallback _ _ (by decide)

/-- Processing a well-formed `=== RUN` line from any state appends a fresh
test carrying the run line in its create buffer (via the trailing phase
split) and points `cur` at it. -/
theorem processRunLine (st : ParseState) (p : RunPass) (hw : wfPair p) :
    processLine st p.runLine =
      { st with cur := p.name,
                tests := st.tests ++
                  [⟨p.name, 0, 0, 0, 0, Result.FAIL, [], [p.runLine], [], [], []⟩],
                capturedPackage := [], isCreate := true, seenSummary := false } := by
  obtain ⟨hrun, htrim, -⟩ := hw
  have hds := matchDestroyStart_false_of_run hrun
  have key1 : findTestIdx (st.tests ++ [newTest p.name]) p.name =
      some st.tests.length := by
    rw [findTestIdx_append_one]
    simp [newTest]
  unfold processLine
  rw [if_pos hrun]
  unfold phaseSplit
  dsimp only
  rw [htrim, key1]
  dsimp only
  simp only [hds, Bool.false_eq_true, if_false, if_true]
  rw [updateAt_append_length]
  rfl

/-- Processing the matching `--- PASS` line (from a state whose generic
buffer is empty) marks the test PASS with its parsed duration, runs the
analyzer (a no-op: the create buffer has a single line), appends the
status line to the create buffer, and accumulates the duration. -/
theorem processPassLine (st : ParseState) (p : RunPass) (hw : wfPair p)
    (hbuf : st.buffer = []) :
    processLine
      { st with cur := p.name,
                tests := st.tests ++
                  [⟨p.name, 0, 0, 0, 0, Result.FAIL, [], [p.runLine], [], [], []⟩],
                capturedPackage := [], isCreate := true, seenSummary := false }
      p.statLine =
      { st with cur := p.name, tests := st.tests ++ [c1Test p],
                capturedPackage := [], isCreate := true, seenSummary := false,
                buffer := [],
                testsTime := qadd st.testsTime (parseTime p.dur) } := by
  obtain ⟨-, -, hstat⟩ := hw
  have hrun2 := not_run_of_status hstat
  have hres := matchResult_none_of_status hstat
  have hds2 := matchDestroyStart_false_of_status hstat
  have key2 : findTestIdx
      (st.tests ++ [(⟨p.name, 0, 0, 0, 0, Result.FAIL, [], [p.runLine], [], [], []⟩ : Test)])
      p.name = some st.tests.length := by
    rw [findTestIdx_append_one]
    simp
  have hsu : statusUpdate ⟨gs "PASS", p.name, p.dur⟩ st.buffer
      (⟨p.name, 0, 0, 0, 0, Result.FAIL, [], [p.runLine], [], [], []⟩ : Test) =
      (⟨p.name, parseTime p.dur, 0, 0, 0, Result.PASS, [], [p.runLine], [], [], []⟩ : Test) := by
    unfold statusUpdate
    rw [if_pos rfl]
    dsimp only
    rw [if_pos rfl]
    rw [pCDS_short _ (by simp) (by simp)]
    rw [hbuf]
    rfl
  unfold processLine
  rw [if_neg (by simp [hrun2]), hres, hstat]
  dsimp only
  rw [key2]
  dsimp only
  unfold phaseSplit
  dsimp only
  rw [updateAt_append_length, hsu, findTestIdx_append_one]
  dsimp only
  rw [if_pos rfl]
  simp only [hds2, Bool.false_eq_true, if_false, if_true]
  rw [updateAt_append_length]
  rfl

/-- Folding the loop over a list of well-formed run/pass pairs (from a
state with an empty generic buffer): each pair contributes one PASS test
with its parsed duration; packages, coverage and captures are untouched
and the buffer stays empty. -/
theorem processPairs (ps : List RunPass) :
    ∀ st : ParseState, (∀ p ∈ ps, wfPair p) → st.buffer = [] →
      (((pairLines ps).foldl processLine st).packages = st.packages ∧
       ((pairLines ps).foldl processLine st).tests =
         st.tests ++ ps.map c1Test ∧
       ((pairLines ps).foldl processLine st).testsTime =
         st.testsTime + (ps.map fun p => parseTime p.dur).sum ∧
       ((pairLines ps).foldl processLine st).buffer = [] ∧
       ((pairLines ps).foldl processLine st).coveragePct = st.coveragePct ∧
       ((pairLines ps).foldl processLine st).packageCaptures =
         st.packageCaptures) := by
  induction ps with
  | nil =>
    intro st hwf hbuf
    exact ⟨rfl, by simp [pairLines], by simp [pairLines], hbuf, rfl, rfl⟩
  | cons p rest ih =>
    intro st hwf hbuf
    have hwp : wfPair p := hwf p (List.mem_cons_self p rest)
    have hwr : ∀ q ∈ rest, wfPair q := fun q hq => hwf q (List.mem_cons_of_mem p hq)
    have hpl : pairLines (p :: rest) = p.runLine :: p.statLine :: pairLines rest := rfl
    rw [hpl, List.foldl_cons, List.foldl_cons, processRunLine st p hwp,
      processPassLine st p hwp hbuf]
    set st1 : ParseState :=
      { st with cur := p.name, tests := st.tests ++ [c1Test p],
                capturedPackage := [], isCreate := true, seenSummary := false,
                buffer := [],
                testsTime := qadd st.testsTime (parseTime p.dur) } with hst1
    obtain ⟨ih1, ih2, ih3, ih4, ih5, ih6⟩ := ih st1 hwr rfl
    refine ⟨ih1, ?_, ?_, ih4, ih5, ih6⟩
    · rw [ih2]
      show (st.tests ++ [c1Test p]) ++ rest.map c1Test = _
      rw [List.append_assoc]
      rfl
    · rw [ih3]
      show qadd st.testsTime (parseTime p.dur) + _ = _
      rw [qadd_eq_add]
      simp [add_assoc]

/-- **C1 (counterexample).** On `=== RUN TestA` / `--- PASS: TestA (1.50s)`
/ `ok pkg 1.50s` the report does *not* contain exactly one package: the
final fallback package is appended unconditionally at end-of-input, so
there are two. -/
theorem run_pass_package_counterexample :
    (parseLines [gs "=== RUN TestA", gs "--- PASS: TestA (1.50s)",
        gs "ok pkg 1.50s"] (gs "fb")).packages.length = 2 ∧ (2 ≠ 1) := by
  constructor
  · decide
  · decide

/-- **C1 (amended).** For every input consisting of N well-formed
`=== RUN <name>` lines each followed by a matching
`--- PASS: <name> (<d>s)` status line and terminated by a matching
package result line (not of the build-failure shape), `Parse` returns a
Report with exactly *two* Packages: the first, named by the result line,
contains exactly N Tests, each with Result PASS and Time equal to its
parsed `<d>`; the second is the unconditionally appended trailing
fallback package with no tests and zero duration. -/
theorem run_pass_package (ps : List RunPass) (R : GoStr) (m : ResultMatch)
    (fb : GoStr)
    (hps : ∀ p ∈ ps, wfPair p)
    (hR : matchResult R = some m) (hfail : m.failed = []) :
    ∃ cov, (parseLines (pairLines ps ++ [R]) fb).packages =
        [⟨m.pkg, parseTime m.dur, ps.map c1Test, cov⟩, ⟨fb, 0, [], []⟩] ∧
      (ps.map c1Test).length = ps.length ∧
      (ps.map c1Test).map Test.result = List.replicate ps.length Result.PASS ∧
      (ps.map c1Test).map Test.time = ps.map fun p => parseTime p.dur := by
  obtain ⟨hp1, hp2, hp3, hp4, hp5, hp6⟩ := processPairs ps initState hps rfl
  have hrunR := not_run_of_result hR
  set stf := (pairLines ps).foldl processLine initState with hstf
  have hstep : processLine stf R =
      phaseSplit
        { stf with
            packages := stf.packages ++
              [⟨m.pkg, parseTime m.dur, stf.tests,
                if m.cov ≠ [] then m.cov else stf.coveragePct⟩],
            buffer := [], tests := [], coveragePct := [], cur := [],
            testsTime := 0 } R := by
    unfold processLine
    rw [if_neg (by simp [hrunR]), hR]
    dsimp only
    rw [if_neg (show ¬ goHasSuffix m.failed (gs "failed]") = true by
          rw [hfail]; decide),
      if_neg (by rintro ⟨-, -, hb⟩; exact hb hp4)]
  unfold parseLines
  rw [List.foldl_append]
  simp only [List.foldl_cons, List.foldl_nil]
  rw [hstep]
  have hps' : (phaseSplit
      { stf with
          packages := stf.packages ++
            [⟨m.pkg, parseTime m.dur, stf.tests,
              if m.cov ≠ [] then m.cov else stf.coveragePct⟩],
          buffer := [], tests := [], coveragePct := [], cur := [],
          testsTime := 0 } R) =
      { stf with
          packages := stf.packages ++
            [⟨m.pkg, parseTime m.dur, stf.tests,
              if m.cov ≠ [] then m.cov else stf.coveragePct⟩],
          buffer := [], tests := [], coveragePct := [], cur := [],
          testsTime := 0 } := by
    unfold phaseSplit
    rfl
  rw [hps']
  refine ⟨if m.cov ≠ [] then m.cov else stf.coveragePct, ?_, by simp,
    ?_, by
      rw [List.map_map]
      exact List.map_congr_left fun a _ => rfl⟩
  · dsimp only
    rw [hp1, hp2]
    show ([] : List Package) ++ _ = _
    simp
    rfl
  · rw [List.map_map]
    have : (Test.result ∘ c1Test) = fun _ => Result.PASS := rfl
    rw [this, List.map_const']

theorem run_pass_package_witness :
    ∃ cov,
      (parseLines
        (pairLines
          [⟨gs "=== RUN TestA", gs "--- PASS: TestA (1.50s)", gs "TestA", gs "1.50"⟩,
           ⟨gs "=== RUN TestB", gs "--- PASS: TestB (0.20s)", gs "TestB", gs "0.20"⟩] ++
          [gs "ok pkg 2.00s"]) (gs "fb")).packages =
        [⟨gs "pkg", parseTime (gs "2.00"),
          [⟨gs "=== RUN TestA", gs "--- PASS: TestA (1.50s)", gs "TestA", gs "1.50"⟩,
           ⟨gs "=== RUN TestB", gs "--- PASS: TestB (0.20s)", gs "TestB", gs "0.20"⟩].map c1Test,
          cov⟩, ⟨gs "fb", 0, [], []⟩] ∧
      ([⟨gs "=== RUN TestA", gs "--- PASS: TestA (1.50s)", gs "TestA", gs "1.50"⟩,
        (⟨gs "=== RUN TestB", gs "--- PASS: TestB (0.20s)", gs "TestB", gs "0.20"⟩ : RunPass)].map c1Test).length = 2 ∧
      ([⟨gs "=== RUN TestA", gs "--- PASS: TestA (1.50s)", gs "TestA", gs "1.50"⟩,
        (⟨gs "=== RUN TestB", gs "--- PASS: TestB (0.20s)", gs "TestB", gs "0.20"⟩ : RunPass)].map c1Test).map Test.result =
        List.replicate 2 Result.PASS := by
  obtain ⟨cov, h1, h2, h3, -⟩ := run_pass_package
    [⟨gs "=== RUN TestA", gs "--- PASS: TestA (1.50s)", gs "TestA", gs "1.50"⟩,
     ⟨gs "=== RUN TestB", gs "--- PASS: TestB (0.20s)", gs "TestB", gs "0.20"⟩]
    (gs "ok pkg 2.00s") ⟨gs "ok", gs "pkg", gs "2.00", [], []⟩ (gs "fb")
    (by intro p hp
        simp only [List.mem_cons, List.not_mem_nil, or_false] at hp
        rcases hp with rfl | rfl
        · exact ⟨by decide, by decide, by decide⟩
        · exact ⟨by decide, by decide, by decide⟩)
    (by decide) rfl
  exact ⟨cov, h1, h2, h3⟩

/-- **C4.** (code bug) On input where a FAIL package-result line is
matched with zero collected tests and a non-empty generic buffer, the
code synthesizes exactly one failing test named "Failure" — but its
Output is `append(make([]string, len(buffer), cap(buffer)), buffer...)`,
which is `len(buffer)` empty strings followed by the buffered lines, not
the buffered lines alone as the spec states.  At the failing input below
the buffered line is `oops` and the synthesized Output is `["", "oops"]`. -/
theorem fail_dummy_output_bug :
    ((parseLines [gs "oops", gs "FAIL p 0.10s"] (gs "pkg")).packages.head?.map
      fun p => p.tests.map fun t => (t.name, t.result, t.output)) =
      some [(gs "Failure", Result.FAIL, [[], gs "oops"])] ∧
    ([([] : GoStr), gs "oops"] ≠ [gs "oops"]) := by
  constructor
  · decide
  · decide

end GoJunit
